import Mathlib

/-!
Verification of the grading engine of the 2025PDDS Python assessment
repository, against its natural-language specification.

The repository contains two near-identical graders, `grade_pandas.py` and
`grade_python_list.py`.  Each captures a submission's stdout and scores four
tasks (joined / grouped / sorted_result / top_user) by extracting a printed
Python literal after a per-task header line and comparing it deeply with an
expected value; the pandas grader additionally applies tolerant regex-based
fallback matchers for tabular output.

Captured output is modelled as `List Char`.  Python values printed by
submissions are modelled by the inductive type `PyVal`, Python `==` by
`pyEq`, and the standard-library literal parser `ast.literal_eval` by a
recursive-descent parser over the literal syntax the exercise uses
(mappings, sequences, tuples, quoted strings, integers, booleans, None).
-/

namespace Grading

/-- Character strings of captured output, modelled as lists of characters. -/
abbrev Str := List Char

/-- The code points Python treats as whitespace: the set accepted by
`str.isspace`, which also backs `str.strip` and the regex class `\s`. -/
def isPySpace (c : Char) : Bool :=
  c == ' ' || c == '\t' || c == '\n' || c == '\r' || c == '\x0b' || c == '\x0c' ||
  c == '\x1c' || c == '\x1d' || c == '\x1e' || c == '\x1f' ||
  c == '\u0085' || c == '\u00a0' || c == '\u1680' ||
  ('\u2000' ≤ c && c ≤ '\u200a') ||
  c == '\u2028' || c == '\u2029' || c == '\u202f' || c == '\u205f' || c == '\u3000'

/-- Python `str.strip()`: drop leading and trailing whitespace. -/
def pstrip (s : Str) : Str :=
  ((s.dropWhile isPySpace).reverse.dropWhile isPySpace).reverse

/-- The code points `str.splitlines` breaks lines at. -/
def isLineBreak (c : Char) : Bool :=
  c == '\n' || c == '\r' || c == '\x0b' || c == '\x0c' ||
  c == '\x1c' || c == '\x1d' || c == '\x1e' ||
  c == '\u0085' || c == '\u2028' || c == '\u2029'

/-- Normalize the two-character line break CR LF to a single LF, as
`str.splitlines` treats it as one break. -/
def normNl : Str → Str
  | [] => []
  | '\r' :: '\n' :: rest => '\n' :: normNl rest
  | c :: rest => c :: normNl rest

/-- Split at line-break characters, keeping all segments (one more segment
than breaks). -/
def splitSegs : Str → List Str
  | [] => [[]]
  | c :: rest =>
    if isLineBreak c then [] :: splitSegs rest
    else
      match splitSegs rest with
      | seg :: segs => (c :: seg) :: segs
      | [] => [[c]]

/-- Python `str.splitlines()`: split at line breaks; a trailing line break
produces no trailing empty line. -/
def splitlines (s : Str) : List Str :=
  let segs := splitSegs (normNl s)
  match segs.getLast? with
  | some [] => segs.dropLast
  | _ => segs

/-- Python values as printed and compared by the graders: `None`, booleans,
integers, strings, lists, tuples and dicts (dicts as insertion-ordered
association lists, as CPython stores them). -/
inductive PyVal where
  | none
  | bool (b : Bool)
  | int (n : Int)
  | str (s : Str)
  | list (xs : List PyVal)
  | tuple (xs : List PyVal)
  | dict (entries : List (PyVal × PyVal))

mutual

/-- Computable size of a value (structural recursion, so it reduces in the
kernel; the derived `sizeOf` of a nested inductive does not execute). -/
def pySize : PyVal → Nat
  | PyVal.none => 1
  | PyVal.bool _ => 1
  | PyVal.int _ => 1
  | PyVal.str _ => 1
  | PyVal.list xs => 1 + pySizeList xs
  | PyVal.tuple xs => 1 + pySizeList xs
  | PyVal.dict es => 1 + pySizeEntries es

/-- Size of a value list. -/
def pySizeList : List PyVal → Nat
  | [] => 1
  | x :: xs => 1 + pySize x + pySizeList xs

/-- Size of a dict entry list. -/
def pySizeEntries : List (PyVal × PyVal) → Nat
  | [] => 1
  | (k, v) :: es => 1 + pySize k + pySize v + pySizeEntries es

end

/-- Every value has positive size. -/
theorem pySize_pos (a : PyVal) : 1 ≤ pySize a := by
  cases a <;> simp [pySize]

/-- Every value list has positive size. -/
theorem pySizeList_pos (xs : List PyVal) : 1 ≤ pySizeList xs := by
  cases xs <;> simp [pySizeList] <;> omega

/-- Every entry list has positive size. -/
theorem pySizeEntries_pos (es : List (PyVal × PyVal)) : 1 ≤ pySizeEntries es := by
  cases es with
  | nil => simp [pySizeEntries]
  | cons e es => obtain ⟨k, v⟩ := e; simp [pySizeEntries]; omega

/-- A pending comparison job for the Python `==` evaluator: comparing two
values, two value sequences element-wise, looking a key/value pair up in a
dict, or checking dict inclusion entry by entry. -/
inductive EqJob where
  | val (a b : PyVal)
  | listJ (xs ys : List PyVal)
  | find (k v : PyVal) (b : List (PyVal × PyVal))
  | sub (a b : List (PyVal × PyVal))

/-- Size of a comparison job; every recursive step of `runEq` strictly
decreases it. -/
def jobSize : EqJob → Nat
  | EqJob.val a b => pySize a + pySize b
  | EqJob.listJ xs ys => pySizeList xs + pySizeList ys
  | EqJob.find k v b => pySize k + pySize v + pySizeEntries b
  | EqJob.sub a b => pySizeEntries a + pySizeEntries b

/-- Fuel-indexed evaluator of Python `==`: numeric equality across
`bool`/`int` (Python booleans are integers), element-wise ordered comparison
for lists and tuples, order-insensitive key/value comparison for dicts
(`len(a) == len(b)` and every key of `a` found in `b` with an equal value),
and `False` across different shapes.  Structural recursion on `fuel` keeps
the function kernel-computable; any `fuel > jobSize j` yields the same
result (`runEq_fuel_irrel`). -/
def runEq : Nat → EqJob → Bool
  | 0, _ => false
  | fuel + 1, j =>
    match j with
    | EqJob.val a b =>
      match a, b with
      | PyVal.none, PyVal.none => true
      | PyVal.bool x, PyVal.bool y => x == y
      | PyVal.bool x, PyVal.int n => (if x then (1 : Int) else 0) == n
      | PyVal.int m, PyVal.bool y => m == (if y then (1 : Int) else 0)
      | PyVal.int m, PyVal.int n => m == n
      | PyVal.str s, PyVal.str t => s == t
      | PyVal.list xs, PyVal.list ys => runEq fuel (EqJob.listJ xs ys)
      | PyVal.tuple xs, PyVal.tuple ys => runEq fuel (EqJob.listJ xs ys)
      | PyVal.dict xs, PyVal.dict ys =>
          xs.length == ys.length && runEq fuel (EqJob.sub xs ys)
      | _, _ => false
    | EqJob.listJ xs ys =>
      match xs, ys with
      | [], [] => true
      | x :: xs2, y :: ys2 => runEq fuel (EqJob.val x y) && runEq fuel (EqJob.listJ xs2 ys2)
      | _, _ => false
    | EqJob.find k v b =>
      match b with
      | [] => false
      | (k2, v2) :: rest =>
          if runEq fuel (EqJob.val k k2) then runEq fuel (EqJob.val v v2)
          else runEq fuel (EqJob.find k v rest)
    | EqJob.sub a b =>
      match a with
      | [] => true
      | (k, v) :: rest => runEq fuel (EqJob.find k v b) && runEq fuel (EqJob.sub rest b)

/-- Python `==` on two values. -/
def pyEq (a b : PyVal) : Bool := runEq (pySize a + pySize b + 1) (EqJob.val a b)

/-- Element-wise comparison of sequences with `pyEq`. -/
def pyEqList (xs ys : List PyVal) : Bool :=
  runEq (pySizeList xs + pySizeList ys + 1) (EqJob.listJ xs ys)

/-- Find the first entry of `b` whose key is `pyEq` to `k` and compare its
value with `v`; `false` when no key matches (Python `k in d and d[k] == v`). -/
def pyFindEq (k v : PyVal) (b : List (PyVal × PyVal)) : Bool :=
  runEq (pySize k + pySize v + pySizeEntries b + 1) (EqJob.find k v b)

/-- Every entry of the first dict is present (by key) in the second with a
`pyEq`-equal value. -/
def pyDictSub (a b : List (PyVal × PyVal)) : Bool :=
  runEq (pySizeEntries a + pySizeEntries b + 1) (EqJob.sub a b)

/-- The result of `runEq` does not depend on the fuel once it exceeds the
job size. -/
theorem runEq_fuel_irrel :
    ∀ (n : Nat) (j : EqJob) (f1 f2 : Nat), jobSize j ≤ n →
      jobSize j < f1 → jobSize j < f2 → runEq f1 j = runEq f2 j := by
  intro n
  induction n with
  | zero =>
    intro j f1 f2 hn _ _
    exfalso
    cases j with
    | val a b =>
      have ha := pySize_pos a
      simp [jobSize] at hn
      omega
    | listJ xs ys =>
      have ha := pySizeList_pos xs
      simp [jobSize] at hn
      omega
    | find k v b =>
      have ha := pySize_pos k
      simp [jobSize] at hn
      omega
    | sub a b =>
      have ha := pySizeEntries_pos a
      simp [jobSize] at hn
      omega
  | succ n ih =>
    intro j f1 f2 hn h1 h2
    obtain ⟨g1, rfl⟩ : ∃ g, f1 = g + 1 := ⟨f1 - 1, by omega⟩
    obtain ⟨g2, rfl⟩ : ∃ g, f2 = g + 1 := ⟨f2 - 1, by omega⟩
    cases j with
    | val a b =>
      cases a <;> cases b <;> (try rfl) <;> simp only [runEq] <;>
        first
          | (apply ih <;> (simp [jobSize, pySize, pySizeList, pySizeEntries] at hn h1 h2 ⊢ <;> omega))
          | (congr 1
             apply ih <;> (simp [jobSize, pySize, pySizeList, pySizeEntries] at hn h1 h2 ⊢ <;> omega))
    | listJ xs ys =>
      cases xs with
      | nil => cases ys <;> rfl
      | cons x xs2 =>
        cases ys with
        | nil => rfl
        | cons y ys2 =>
          simp only [runEq]
          rw [ih (EqJob.val x y) g1 g2 (by simp [jobSize, pySize, pySizeList, pySizeEntries] at hn h1 h2 ⊢ <;> omega)
                (by simp [jobSize, pySize, pySizeList, pySizeEntries] at hn h1 h2 ⊢ <;> omega)
                (by simp [jobSize, pySize, pySizeList, pySizeEntries] at hn h1 h2 ⊢ <;> omega),
              ih (EqJob.listJ xs2 ys2) g1 g2 (by simp [jobSize, pySize, pySizeList, pySizeEntries] at hn h1 h2 ⊢ <;> omega)
                (by simp [jobSize, pySize, pySizeList, pySizeEntries] at hn h1 h2 ⊢ <;> omega)
                (by simp [jobSize, pySize, pySizeList, pySizeEntries] at hn h1 h2 ⊢ <;> omega)]
    | find k v b =>
      cases b with
      | nil => rfl
      | cons e rest =>
        obtain ⟨k2, v2⟩ := e
        simp only [runEq]
        rw [ih (EqJob.val k k2) g1 g2 (by simp [jobSize, pySize, pySizeList, pySizeEntries] at hn h1 h2 ⊢ <;> omega)
              (by simp [jobSize, pySize, pySizeList, pySizeEntries] at hn h1 h2 ⊢ <;> omega)
              (by simp [jobSize, pySize, pySizeList, pySizeEntries] at hn h1 h2 ⊢ <;> omega),
            ih (EqJob.val v v2) g1 g2 (by simp [jobSize, pySize, pySizeList, pySizeEntries] at hn h1 h2 ⊢ <;> omega)
              (by simp [jobSize, pySize, pySizeList, pySizeEntries] at hn h1 h2 ⊢ <;> omega)
              (by simp [jobSize, pySize, pySizeList, pySizeEntries] at hn h1 h2 ⊢ <;> omega),
            ih (EqJob.find k v rest) g1 g2 (by simp [jobSize, pySize, pySizeList, pySizeEntries] at hn h1 h2 ⊢ <;> omega)
              (by simp [jobSize, pySize, pySizeList, pySizeEntries] at hn h1 h2 ⊢ <;> omega)
              (by simp [jobSize, pySize, pySizeList, pySizeEntries] at hn h1 h2 ⊢ <;> omega)]
    | sub a b =>
      cases a with
      | nil => rfl
      | cons e rest =>
        obtain ⟨k, v⟩ := e
        simp only [runEq]
        rw [ih (EqJob.find k v b) g1 g2 (by simp [jobSize, pySize, pySizeList, pySizeEntries] at hn h1 h2 ⊢ <;> omega)
              (by simp [jobSize, pySize, pySizeList, pySizeEntries] at hn h1 h2 ⊢ <;> omega)
              (by simp [jobSize, pySize, pySizeList, pySizeEntries] at hn h1 h2 ⊢ <;> omega),
            ih (EqJob.sub rest b) g1 g2 (by simp [jobSize, pySize, pySizeList, pySizeEntries] at hn h1 h2 ⊢ <;> omega)
              (by simp [jobSize, pySize, pySizeList, pySizeEntries] at hn h1 h2 ⊢ <;> omega)
              (by simp [jobSize, pySize, pySizeList, pySizeEntries] at hn h1 h2 ⊢ <;> omega)]

/-- Equation: element-wise comparison of two lists. -/
@[simp] theorem pyEq_list_list (xs ys : List PyVal) :
    pyEq (PyVal.list xs) (PyVal.list ys) = pyEqList xs ys := by
  show runEq (pySize (PyVal.list xs) + pySize (PyVal.list ys)) (EqJob.listJ xs ys) = _
  exact runEq_fuel_irrel (jobSize (EqJob.listJ xs ys)) (EqJob.listJ xs ys)
    (pySize (PyVal.list xs) + pySize (PyVal.list ys))
    (pySizeList xs + pySizeList ys + 1) le_rfl
    (by simp only [jobSize, pySize]; omega) (by simp only [jobSize]; omega)

/-- Equation: element-wise comparison of two tuples. -/
@[simp] theorem pyEq_tuple_tuple (xs ys : List PyVal) :
    pyEq (PyVal.tuple xs) (PyVal.tuple ys) = pyEqList xs ys := by
  show runEq (pySize (PyVal.tuple xs) + pySize (PyVal.tuple ys)) (EqJob.listJ xs ys) = _
  exact runEq_fuel_irrel (jobSize (EqJob.listJ xs ys)) (EqJob.listJ xs ys)
    (pySize (PyVal.tuple xs) + pySize (PyVal.tuple ys))
    (pySizeList xs + pySizeList ys + 1) le_rfl
    (by simp only [jobSize, pySize]; omega) (by simp only [jobSize]; omega)

/-- Equation: dict comparison is a length check plus entry inclusion. -/
@[simp] theorem pyEq_dict_dict (xs ys : List (PyVal × PyVal)) :
    pyEq (PyVal.dict xs) (PyVal.dict ys) = (xs.length == ys.length && pyDictSub xs ys) := by
  show (xs.length == ys.length &&
      runEq (pySize (PyVal.dict xs) + pySize (PyVal.dict ys)) (EqJob.sub xs ys)) = _
  rw [runEq_fuel_irrel (jobSize (EqJob.sub xs ys)) (EqJob.sub xs ys)
    (pySize (PyVal.dict xs) + pySize (PyVal.dict ys))
    (pySizeEntries xs + pySizeEntries ys + 1) le_rfl
    (by simp only [jobSize, pySize]; omega) (by simp only [jobSize]; omega)]
  rfl

/-- Equation: comparing a cons cell with a cons cell. -/
@[simp] theorem pyEqList_cons_cons (x y : PyVal) (xs ys : List PyVal) :
    pyEqList (x :: xs) (y :: ys) = (pyEq x y && pyEqList xs ys) := by
  show (runEq (pySizeList (x :: xs) + pySizeList (y :: ys)) (EqJob.val x y) &&
      runEq (pySizeList (x :: xs) + pySizeList (y :: ys)) (EqJob.listJ xs ys)) = _
  rw [runEq_fuel_irrel (jobSize (EqJob.val x y)) (EqJob.val x y)
        (pySizeList (x :: xs) + pySizeList (y :: ys))
        (pySize x + pySize y + 1) le_rfl
        (by simp only [jobSize, pySizeList]; omega) (by simp only [jobSize]; omega),
      runEq_fuel_irrel (jobSize (EqJob.listJ xs ys)) (EqJob.listJ xs ys)
        (pySizeList (x :: xs) + pySizeList (y :: ys))
        (pySizeList xs + pySizeList ys + 1) le_rfl
        (by simp only [jobSize, pySizeList]; omega) (by simp only [jobSize]; omega)]
  rfl

/-- Equation: the empty list only equals the empty list. -/
@[simp] theorem pyEqList_nil_nil : pyEqList [] [] = true := rfl

/-- Equation: nil versus cons. -/
@[simp] theorem pyEqList_nil_cons (y : PyVal) (ys : List PyVal) :
    pyEqList [] (y :: ys) = false := rfl

/-- Equation: cons versus nil. -/
@[simp] theorem pyEqList_cons_nil (x : PyVal) (xs : List PyVal) :
    pyEqList (x :: xs) [] = false := rfl

/-- Equation: key lookup in the empty dict fails. -/
@[simp] theorem pyFindEq_nil (k v : PyVal) : pyFindEq k v [] = false := rfl

/-- Equation: key lookup against a cons dict. -/
@[simp] theorem pyFindEq_cons (k v k2 v2 : PyVal) (rest : List (PyVal × PyVal)) :
    pyFindEq k v ((k2, v2) :: rest) =
      (if pyEq k k2 then pyEq v v2 else pyFindEq k v rest) := by
  show (if runEq (pySize k + pySize v + pySizeEntries ((k2, v2) :: rest)) (EqJob.val k k2) then
      runEq (pySize k + pySize v + pySizeEntries ((k2, v2) :: rest)) (EqJob.val v v2)
    else runEq (pySize k + pySize v + pySizeEntries ((k2, v2) :: rest)) (EqJob.find k v rest)) = _
  rw [runEq_fuel_irrel (jobSize (EqJob.val k k2)) (EqJob.val k k2)
        (pySize k + pySize v + pySizeEntries ((k2, v2) :: rest))
        (pySize k + pySize k2 + 1) le_rfl
        (by simp only [jobSize, pySizeEntries]; omega) (by simp only [jobSize]; omega),
      runEq_fuel_irrel (jobSize (EqJob.val v v2)) (EqJob.val v v2)
        (pySize k + pySize v + pySizeEntries ((k2, v2) :: rest))
        (pySize v + pySize v2 + 1) le_rfl
        (by simp only [jobSize, pySizeEntries]; omega) (by simp only [jobSize]; omega),
      runEq_fuel_irrel (jobSize (EqJob.find k v rest)) (EqJob.find k v rest)
        (pySize k + pySize v + pySizeEntries ((k2, v2) :: rest))
        (pySize k + pySize v + pySizeEntries rest + 1) le_rfl
        (by simp only [jobSize, pySizeEntries]; omega) (by simp only [jobSize]; omega)]
  rfl

/-- Equation: inclusion of the empty entry list holds. -/
@[simp] theorem pyDictSub_nil (b : List (PyVal × PyVal)) : pyDictSub [] b = true := rfl

/-- Equation: inclusion of a cons entry list. -/
@[simp] theorem pyDictSub_cons (k v : PyVal) (rest b : List (PyVal × PyVal)) :
    pyDictSub ((k, v) :: rest) b = (pyFindEq k v b && pyDictSub rest b) := by
  show (runEq (pySizeEntries ((k, v) :: rest) + pySizeEntries b) (EqJob.find k v b) &&
      runEq (pySizeEntries ((k, v) :: rest) + pySizeEntries b) (EqJob.sub rest b)) = _
  rw [runEq_fuel_irrel (jobSize (EqJob.find k v b)) (EqJob.find k v b)
        (pySizeEntries ((k, v) :: rest) + pySizeEntries b)
        (pySize k + pySize v + pySizeEntries b + 1) le_rfl
        (by simp only [jobSize, pySizeEntries]; omega) (by simp only [jobSize]; omega),
      runEq_fuel_irrel (jobSize (EqJob.sub rest b)) (EqJob.sub rest b)
        (pySizeEntries ((k, v) :: rest) + pySizeEntries b)
        (pySizeEntries rest + pySizeEntries b + 1) le_rfl
        (by simp only [jobSize, pySizeEntries]; omega) (by simp only [jobSize]; omega)]
  rfl

/-- Equation: integer scalars compare by value. -/
@[simp] theorem pyEq_int_int (m n : Int) : pyEq (PyVal.int m) (PyVal.int n) = (m == n) := rfl

/-- Equation: string scalars compare by value. -/
@[simp] theorem pyEq_str_str (s t : Str) : pyEq (PyVal.str s) (PyVal.str t) = (s == t) := rfl

/-- Shape mismatch: a list never equals a tuple. -/
@[simp] theorem pyEq_list_tuple (xs ys : List PyVal) :
    pyEq (PyVal.list xs) (PyVal.tuple ys) = false := rfl

/-- Shape mismatch: a tuple never equals a list. -/
@[simp] theorem pyEq_tuple_list (xs ys : List PyVal) :
    pyEq (PyVal.tuple xs) (PyVal.list ys) = false := rfl

/-- Shape mismatch: a list never equals a dict. -/
@[simp] theorem pyEq_list_dict (xs : List PyVal) (es : List (PyVal × PyVal)) :
    pyEq (PyVal.list xs) (PyVal.dict es) = false := rfl

/-- Shape mismatch: a tuple never equals a dict. -/
@[simp] theorem pyEq_tuple_dict (xs : List PyVal) (es : List (PyVal × PyVal)) :
    pyEq (PyVal.tuple xs) (PyVal.dict es) = false := rfl

/-- Shape mismatch: an integer never equals a list. -/
@[simp] theorem pyEq_int_list (n : Int) (xs : List PyVal) :
    pyEq (PyVal.int n) (PyVal.list xs) = false := rfl

/-- Shape mismatch: a string never equals a dict. -/
@[simp] theorem pyEq_str_dict (s : Str) (es : List (PyVal × PyVal)) :
    pyEq (PyVal.str s) (PyVal.dict es) = false := rfl

/-- The single-quote character (code point 39). -/
def sq : Char := Char.ofNat 39

/-- Token-level whitespace inside a one-line Python expression. -/
def skipTok (s : Str) : Str := s.dropWhile (fun c => c == ' ' || c == '\t' || c == '\x0c')

/-- Identifier-continuation characters, used to delimit keyword literals. -/
def isIdentChar (c : Char) : Bool := c.isAlphanum || c == '_'

/-- Match a keyword literal at the head of `s`, requiring that it is not
followed by an identifier character; return the remainder. -/
def kwAt (kw : Str) (s : Str) : Option Str :=
  if kw.isPrefixOf s then
    let r := s.drop kw.length
    match r with
    | [] => some []
    | c :: _ => if isIdentChar c then Option.none else some r
  else Option.none

/-- Decimal digit run to a natural number. -/
def digitsToNat (ds : Str) : Nat := ds.foldl (fun n c => n * 10 + (c.toNat - 48)) 0

/-- Parse a decimal integer literal (Python forbids leading zeros on nonzero
decimal literals); return the value and the remainder. -/
def parseNum (s : Str) : Option (Nat × Str) :=
  let ds := s.takeWhile Char.isDigit
  if ds.isEmpty then Option.none
  else if ds.length > 1 && ds.headI == '0' && ds.any (fun c => !(c == '0')) then Option.none
  else some (digitsToNat ds, s.drop ds.length)

/-- Decode one backslash escape inside a Python string literal (the common
escapes; unknown escapes keep the backslash, as in Python). -/
def esc (e : Char) : Str :=
  if e == 'n' then ['\n'] else if e == 't' then ['\t'] else if e == 'r' then ['\r']
  else if e == '\\' then ['\\'] else if e == sq then [sq] else if e == '"' then ['"']
  else ['\\', e]

/-- Parse the body of a quoted string literal up to the closing quote `qc`,
decoding escapes; fails at end of input or at a line break. -/
def parseStrBody (qc : Char) : Str → Option (Str × Str)
  | [] => Option.none
  | c :: rest =>
    if c == qc then some ([], rest)
    else if isLineBreak c then Option.none
    else if c == '\\' then
      match rest with
      | [] => Option.none
      | e :: rest2 => (parseStrBody qc rest2).map (fun p => (esc e ++ p.1, p.2))
    else (parseStrBody qc rest).map (fun p => (c :: p.1, p.2))

/-- Insert a key/value pair into a dict association list the way CPython
does: an existing `pyEq`-equal key keeps its position and original key object
and gets the new value; otherwise the pair is appended. -/
def pyInsert (d : List (PyVal × PyVal)) (k v : PyVal) : List (PyVal × PyVal) :=
  match d with
  | [] => [(k, v)]
  | (k2, v2) :: rest => if pyEq k k2 then (k2, v) :: rest else (k2, v2) :: pyInsert rest k v

mutual

/-- Modelled from the spec: the host language's literal parser
(`ast.literal_eval` of the Python standard library, which is not part of
src/).  Parses one value of "the textual literal representation for mappings
(`{key: value, ...}`), ordered sequences (`[v1, v2, ...]`), 2-tuples
(`(a, b)`), and scalars (numbers, quoted text)" plus the keyword literals
`True`/`False`/`None` and signed integers; returns the value and the
remaining input.  `fuel` bounds recursion depth and is chosen large enough
by the caller. -/
def parseVal : Nat → Str → Option (PyVal × Str)
  | 0, _ => Option.none
  | fuel + 1, s0 =>
    let s := skipTok s0
    match s with
    | [] => Option.none
    | c :: rest =>
      if c == sq || c == '"' then
        match parseStrBody c rest with
        | some (body, r) => some (PyVal.str body, r)
        | Option.none => Option.none
      else if c == '[' then
        match parseSeq fuel ']' rest with
        | some (xs, r) => some (PyVal.list xs, r)
        | Option.none => Option.none
      else if c == '(' then
        parseParen fuel rest
      else if c == '\x7b' then
        parseDictBody fuel rest
      else if c == '-' then
        match parseNum (skipTok rest) with
        | some (n, r) => some (PyVal.int (-(n : Int)), r)
        | Option.none => Option.none
      else if c == '+' then
        match parseNum (skipTok rest) with
        | some (n, r) => some (PyVal.int (n : Int), r)
        | Option.none => Option.none
      else
        match kwAt ("True".toList) s with
        | some r => some (PyVal.bool true, r)
        | Option.none =>
          match kwAt ("False".toList) s with
          | some r => some (PyVal.bool false, r)
          | Option.none =>
            match kwAt ("None".toList) s with
            | some r => some (PyVal.none, r)
            | Option.none =>
              match parseNum s with
              | some (n, r) => some (PyVal.int (n : Int), r)
              | Option.none => Option.none
termination_by structural fuel _ => fuel

/-- Parse comma-separated values up to the closing bracket `closer`
(trailing comma allowed, as in Python). -/
def parseSeq : Nat → Char → Str → Option (List PyVal × Str)
  | 0, _, _ => Option.none
  | fuel + 1, closer, s0 =>
    let s := skipTok s0
    match s with
    | [] => Option.none
    | c :: rest =>
      if c == closer then some ([], rest)
      else
        match parseVal fuel s with
        | some (v, r1) =>
          match skipTok r1 with
          | [] => Option.none
          | c2 :: rest2 =>
            if c2 == ',' then
              match parseSeq fuel closer rest2 with
              | some (xs, r3) => some (v :: xs, r3)
              | Option.none => Option.none
            else if c2 == closer then some ([v], rest2)
            else Option.none
        | Option.none => Option.none
termination_by structural fuel _ _ => fuel

/-- Parse what follows an opening parenthesis: the empty tuple, a
parenthesized value, or a tuple of two or more values (or one with a
trailing comma). -/
def parseParen : Nat → Str → Option (PyVal × Str)
  | 0, _ => Option.none
  | fuel + 1, s0 =>
    let s := skipTok s0
    match s with
    | [] => Option.none
    | c :: rest =>
      if c == ')' then some (PyVal.tuple [], rest)
      else
        match parseVal fuel s with
        | some (v, r1) =>
          match skipTok r1 with
          | [] => Option.none
          | c2 :: rest2 =>
            if c2 == ')' then some (v, rest2)
            else if c2 == ',' then
              match parseSeq fuel ')' rest2 with
              | some (xs, r3) => some (PyVal.tuple (v :: xs), r3)
              | Option.none => Option.none
            else Option.none
        | Option.none => Option.none
termination_by structural fuel _ => fuel

/-- Parse one `key: value` pair of a dict literal. -/
def parsePair : Nat → Str → Option ((PyVal × PyVal) × Str)
  | 0, _ => Option.none
  | fuel + 1, s =>
    match parseVal fuel s with
    | some (k, r1) =>
      match skipTok r1 with
      | [] => Option.none
      | c :: rest =>
        if c == ':' then
          match parseVal fuel rest with
          | some (v, r2) => some ((k, v), r2)
          | Option.none => Option.none
        else Option.none
    | Option.none => Option.none
termination_by structural fuel _ => fuel

/-- Parse the entries of a dict literal after the opening brace and build
the dict with CPython insertion semantics (`pyInsert`). -/
def parseDictBody : Nat → Str → Option (PyVal × Str)
  | 0, _ => Option.none
  | fuel + 1, s0 =>
    match parseEntries fuel s0 with
    | some (es, r) => some (PyVal.dict (es.foldl (fun d kv => pyInsert d kv.1 kv.2) []), r)
    | Option.none => Option.none
termination_by structural fuel _ => fuel

/-- Parse comma-separated `key: value` pairs up to the closing brace
(trailing comma allowed). -/
def parseEntries : Nat → Str → Option (List (PyVal × PyVal) × Str)
  | 0, _ => Option.none
  | fuel + 1, s0 =>
    let s := skipTok s0
    match s with
    | [] => Option.none
    | c :: rest =>
      if c == '\x7d' then some ([], rest)
      else
        match parsePair fuel s with
        | some (kv, r1) =>
          match skipTok r1 with
          | [] => Option.none
          | c2 :: rest2 =>
            if c2 == ',' then
              match parseEntries fuel rest2 with
              | some (es, r3) => some (kv :: es, r3)
              | Option.none => Option.none
            else if c2 == '\x7d' then some ([kv], rest2)
            else Option.none
        | Option.none => Option.none
termination_by structural fuel _ => fuel

end

/-- Modelled from the spec: `safe_literal_eval` of both graders.  "Safely
evaluate a Python literal; returns None on failure": strip the input, parse
one literal, and require that nothing but token whitespace remains.  A
successfully parsed top-level `None` literal is collapsed to the absent
sentinel, because in Python the function returns the very same `None`
object for a parse failure and for the literal `None`, and every caller
distinguishes results only by `is not None`. -/
def safe_literal_eval (s : Str) : Option PyVal :=
  let t := pstrip s
  match parseVal (t.length * 4 + 16) t with
  | some (v, r) =>
    if (skipTok r).isEmpty then
      match v with
      | PyVal.none => Option.none
      | _ => some v
    else Option.none
  | Option.none => Option.none

/-- First line of `ls` that is non-blank after stripping; returns the
stripped line. -/
def firstNonBlank : List Str → Option Str
  | [] => Option.none
  | l :: ls => let n := pstrip l; if n.isEmpty then firstNonBlank ls else some n

/-- Scan lines for the first one whose stripped content equals `header`;
then parse the first subsequent non-blank line (the loop body of
`extract_after_header`, with the `break` after the first hit). -/
def extractScan : List Str → Str → Option PyVal
  | [], _ => Option.none
  | l :: ls, header =>
    if pstrip l == header then
      match firstNonBlank ls with
      | some nxt => safe_literal_eval nxt
      | Option.none => Option.none
    else extractScan ls header

/-- `extract_after_header` of both graders: find the `header` line, then
parse the next non-empty line as a Python literal; `None` when not found or
not parseable.  A pure function of its two inputs. -/
def extract_after_header (stdout : Str) (header : Str) : Option PyVal :=
  extractScan (splitlines stdout) header

/-- `compare_deep` of both graders: strict deep comparison via Python `==`. -/
def compare_deep (a b : PyVal) : Bool := pyEq a b

/-- Does `q` occur somewhere ahead in `s` with only non-newline characters
before it?  This is the tail of a regex `p.*q` match: `.` matches every
character except the newline. -/
def dotStarTo (q : Str) : Str → Bool
  | [] => q.isEmpty
  | c :: rest => q.isPrefixOf (c :: rest) || (!(c == '\n') && dotStarTo q rest)

/-- Search (as `re.search`) for the pattern `p.*q` anywhere in the text. -/
def searchPQ (p q : Str) : Str → Bool
  | [] => p.isEmpty && q.isEmpty
  | c :: rest =>
    (p.isPrefixOf (c :: rest) && dotStarTo q ((c :: rest).drop p.length)) || searchPQ p q rest

/-- Match `\s+` followed by the literal `b` at the head of `s`: require one
whitespace character, skip the maximal whitespace run, then require `b`;
return the remainder.  For a `b` starting with a non-whitespace character
this is exactly the regex semantics of `\s+b`. -/
def wsChunk1 (b : Str) : Str → Option Str
  | [] => Option.none
  | c :: rest =>
    if isPySpace c then
      let t := rest.dropWhile isPySpace
      if b.isPrefixOf t then some (t.drop b.length) else Option.none
    else Option.none

/-- Match the regex `a\s+b\s+c` at the head of `s` (the shape of the
grouped-row evidence patterns `Alice\s+2\s+250` and `Bob\s+1\s+200`). -/
def gPatAt (a b c : Str) (s : Str) : Bool :=
  if a.isPrefixOf s then
    match wsChunk1 b (s.drop a.length) with
    | some t => (wsChunk1 c t).isSome
    | Option.none => false
  else false

/-- Start position of the leftmost match of `a\s+b\s+c` in `s`, as
`re.search(...).start()`; `none` when there is no match. -/
def gPatFirst (a b c : Str) : Str → Option Nat
  | [] => if gPatAt a b c [] then some 0 else Option.none
  | x :: rest =>
    if gPatAt a b c (x :: rest) then some 0
    else (gPatFirst a b c rest).map Nat.succ

/-- Does `a\s+b\s+c` match anywhere in `s`? -/
def gSearch (a b c : Str) (s : Str) : Bool := (gPatFirst a b c s).isSome

/-- Case-insensitive prefix test via `Char.toLower`, modelling
`re.IGNORECASE` on ASCII pattern text. -/
def ciPrefixOf : Str → Str → Bool
  | [], _ => true
  | _ :: _, [] => false
  | p :: ps, c :: cs => (p.toLower == c.toLower) && ciPrefixOf ps cs

/-- Case-insensitive variant of `wsChunk1` for the literal after `\s+`. -/
def ciWsChunk1 (b : Str) : Str → Option Str
  | [] => Option.none
  | c :: rest =>
    if isPySpace c then
      let t := rest.dropWhile isPySpace
      if ciPrefixOf b t then some (t.drop b.length) else Option.none
    else Option.none

/-- Match the regex `a\s*b` case-insensitively at the head of `s` (the shape
of `Name:\s*Alice` with `re.IGNORECASE`). -/
def ciStarPatAt (a b : Str) (s : Str) : Bool :=
  ciPrefixOf a s && ciPrefixOf b ((s.drop a.length).dropWhile isPySpace)

/-- Search for `a\s*b` (case-insensitive) anywhere in `s`. -/
def ciStarSearch (a b : Str) : Str → Bool
  | [] => ciStarPatAt a b []
  | c :: rest => ciStarPatAt a b (c :: rest) || ciStarSearch a b rest

/-- Match the regex `a\s+b` case-insensitively at the head of `s` (the shape
of `total_spent\s+250` with `re.IGNORECASE`). -/
def ciPlusPatAt (a b : Str) (s : Str) : Bool :=
  ciPrefixOf a s && (ciWsChunk1 b (s.drop a.length)).isSome

/-- Search for `a\s+b` (case-insensitive) anywhere in `s`. -/
def ciPlusSearch (a b : Str) : Str → Bool
  | [] => ciPlusPatAt a b []
  | c :: rest => ciPlusPatAt a b (c :: rest) || ciPlusSearch a b rest

/-- Python `s.split(marker, 1)[1]`: the text after the first occurrence of
`marker` as a substring; `none` when `marker` does not occur (`marker in s`
is false). -/
def splitAfterFirst (marker : Str) : Str → Option Str
  | [] => if marker.isEmpty then some [] else Option.none
  | c :: rest =>
    if marker.isPrefixOf (c :: rest) then some ((c :: rest).drop marker.length)
    else splitAfterFirst marker rest

/-- The four graded task keys, shared by both graders. -/
inductive TaskKey where
  | joined
  | grouped
  | sorted_result
  | top_user
deriving DecidableEq

/-- Shorthand for a Python string value. -/
def pstr (s : String) : PyVal := PyVal.str s.toList

/-- The expected aggregate row for Alice. -/
def aliceAgg : PyVal :=
  PyVal.dict [(pstr "num_orders", PyVal.int 2), (pstr "total_spent", PyVal.int 250)]

/-- The expected aggregate row for Bob. -/
def bobAgg : PyVal :=
  PyVal.dict [(pstr "num_orders", PyVal.int 1), (pstr "total_spent", PyVal.int 200)]

/-- `EXPECTED` of both graders (the two modules define identical values). -/
def EXPECTED : TaskKey → PyVal
  | TaskKey.joined => PyVal.list [
      PyVal.dict [(pstr "name", pstr "Alice"), (pstr "total", PyVal.int 100)],
      PyVal.dict [(pstr "name", pstr "Alice"), (pstr "total", PyVal.int 150)],
      PyVal.dict [(pstr "name", pstr "Bob"), (pstr "total", PyVal.int 200)]]
  | TaskKey.grouped => PyVal.dict [(pstr "Alice", aliceAgg), (pstr "Bob", bobAgg)]
  | TaskKey.sorted_result => PyVal.list [
      PyVal.tuple [pstr "Alice", aliceAgg],
      PyVal.tuple [pstr "Bob", bobAgg]]
  | TaskKey.top_user => PyVal.tuple [pstr "Alice", aliceAgg]

end Grading

namespace GradePandas

open Grading

/-- `POINTS` of grade_pandas.py. -/
def POINTS : TaskKey → Nat
  | TaskKey.joined => 5
  | TaskKey.grouped => 10
  | TaskKey.sorted_result => 20
  | TaskKey.top_user => 5

/-- The three characters stored in grade_pandas.py where the check-mark
emoji was meant: the source file holds the mojibake bytes U+00E2 U+0153
U+2026 (the UTF-8 encoding of the emoji re-decoded as cp1252). -/
def mojiCheck : Str := ['\u00e2', '\u0153', '\u2026']

/-- The three characters stored in grade_pandas.py where the trophy emoji
was meant: the mojibake U+00F0 U+0178 U+2020. -/
def mojiTrophy : Str := ['\u00f0', '\u0178', '\u2020']

/-- `HEADERS` of grade_pandas.py, with the mojibake prefixes exactly as the
source file stores them. -/
def HEADERS : TaskKey → Str
  | TaskKey.joined => mojiCheck ++ (" Joined Result:".toList)
  | TaskKey.grouped => mojiCheck ++ (" Grouped Result:".toList)
  | TaskKey.sorted_result => mojiCheck ++ (" Sorted Result:".toList)
  | TaskKey.top_user => mojiTrophy ++ (" Top User:".toList)

/-- Literal text of the regex pattern pieces. -/
def aliceTxt : Str := "Alice".toList

/-- Literal text `Bob`. -/
def bobTxt : Str := "Bob".toList

/-- `joined_fallback`: all of `Alice.*100`, `Alice.*150`, `Bob.*200` found
by `re.search` in the output. -/
def joined_fallback (stdout : Str) : Bool :=
  searchPQ aliceTxt ("100".toList) stdout && searchPQ aliceTxt ("150".toList) stdout &&
    searchPQ bobTxt ("200".toList) stdout

/-- `grouped_fallback`: both `Alice\s+2\s+250` and `Bob\s+1\s+200` found
anywhere in the output. -/
def grouped_fallback (stdout : Str) : Bool :=
  gSearch aliceTxt ("2".toList) ("250".toList) stdout &&
    gSearch bobTxt ("1".toList) ("200".toList) stdout

/-- The string grade_pandas.py splits on for the sorted-task window (its
mojibake rendering of the Sorted Result header). -/
def sortedMarker : Str := mojiCheck ++ (" Sorted Result:".toList)

/-- The section `sorted_fallback` searches: the text after the first
occurrence of the sorted marker when present, else the whole output. -/
def sortedWindow (stdout : Str) : Str :=
  match splitAfterFirst sortedMarker stdout with
  | some t => t
  | Option.none => stdout

/-- `sorted_fallback`: within the sorted window, the first `Alice\s+2\s+250`
match must start strictly before the first `Bob\s+1\s+200` match. -/
def sorted_fallback (stdout : Str) : Bool :=
  let sec := sortedWindow stdout
  match gPatFirst aliceTxt ("2".toList) ("250".toList) sec,
      gPatFirst bobTxt ("1".toList) ("200".toList) sec with
  | some ia, some ib => decide (ia < ib)
  | _, _ => false

/-- The string grade_pandas.py splits on for the top-user window. -/
def topMarker : Str := mojiTrophy ++ (" Top User:".toList)

/-- The block `top_user_fallback` searches. -/
def topWindow (stdout : Str) : Str :=
  match splitAfterFirst topMarker stdout with
  | some t => t
  | Option.none => stdout

/-- `top_user_fallback`: in the top-user block, `Name:\s*Alice` and
`total_spent\s+250`, both compiled with `re.IGNORECASE`. -/
def top_user_fallback (stdout : Str) : Bool :=
  let block := topWindow stdout
  ciStarSearch ("Name:".toList) aliceTxt block &&
    ciPlusSearch ("total_spent".toList) ("250".toList) block

/-- Diagnostic remarks appended by grade_pandas.py, modelled structurally:
`mismatch k` stands for the string `"<k> mismatch"` and `scriptFailed code
err` for `"Script failed (exit <code>). Stderr: <err>"` with `err` already
truncated to 500 characters. -/
inductive Remark where
  | mismatch (k : TaskKey)
  | scriptFailed (code : Int) (stderrTrunc : Str)
deriving DecidableEq

/-- `grade_from_stdout` of grade_pandas.py: per task, strict literal
comparison after the header, else the tolerant fallback, else zero plus a
remark; returns (total, breakdown, remarks) with the breakdown in the
insertion order of `POINTS`. -/
def grade_from_stdout (stdout : Str) : Nat × List (TaskKey × Nat) × List Remark :=
  let pJ := extract_after_header stdout (HEADERS TaskKey.joined)
  let pG := extract_after_header stdout (HEADERS TaskKey.grouped)
  let pS := extract_after_header stdout (HEADERS TaskKey.sorted_result)
  let pT := extract_after_header stdout (HEADERS TaskKey.top_user)
  let jRes : Nat × List Remark :=
    if (match pJ with | some v => compare_deep v (EXPECTED TaskKey.joined) | Option.none => false) then
      (POINTS TaskKey.joined, [])
    else if joined_fallback stdout then (POINTS TaskKey.joined, [])
    else (0, [Remark.mismatch TaskKey.joined])
  let gRes : Nat × List Remark :=
    if (match pG with | some v => compare_deep v (EXPECTED TaskKey.grouped) | Option.none => false) then
      (POINTS TaskKey.grouped, [])
    else if grouped_fallback stdout then (POINTS TaskKey.grouped, [])
    else (0, [Remark.mismatch TaskKey.grouped])
  let sRes : Nat × List Remark :=
    if (match pS with | some v => compare_deep v (EXPECTED TaskKey.sorted_result) | Option.none => false) then
      (POINTS TaskKey.sorted_result, [])
    else if sorted_fallback stdout then (POINTS TaskKey.sorted_result, [])
    else (0, [Remark.mismatch TaskKey.sorted_result])
  let tRes : Nat × List Remark :=
    if (match pT with | some v => compare_deep v (EXPECTED TaskKey.top_user) | Option.none => false) then
      (POINTS TaskKey.top_user, [])
    else if top_user_fallback stdout then (POINTS TaskKey.top_user, [])
    else (0, [Remark.mismatch TaskKey.top_user])
  let breakdown : List (TaskKey × Nat) :=
    [(TaskKey.joined, jRes.1), (TaskKey.grouped, gRes.1),
     (TaskKey.sorted_result, sRes.1), (TaskKey.top_user, tRes.1)]
  ((breakdown.map Prod.snd).sum, breakdown, jRes.2 ++ gRes.2 ++ sRes.2 ++ tRes.2)

/-- The `GradeResult` record assembled per submission by grade_pandas.py
(`remarks` kept as the list the code joins with " | "). -/
structure GradeResult where
  student_id : Str
  filename : Str
  total : Nat
  breakdown : List (TaskKey × Nat)
  remarks : List Remark
  raw_stdout : Str
  raw_stderr : Str

/-- The per-submission body of `main` in grade_pandas.py: a non-zero exit
code forces total 0, an all-zero breakdown and the single script-failure
remark (with stderr truncated to 500 characters); otherwise the output is
graded. -/
def assemble (sid fname stdout stderr : Str) (code : Int) : GradeResult :=
  if code ≠ 0 then
    { student_id := sid, filename := fname, total := 0,
      breakdown := [(TaskKey.joined, 0), (TaskKey.grouped, 0),
                    (TaskKey.sorted_result, 0), (TaskKey.top_user, 0)],
      remarks := [Remark.scriptFailed code (stderr.take 500)],
      raw_stdout := stdout, raw_stderr := stderr }
  else
    let r := grade_from_stdout stdout
    { student_id := sid, filename := fname, total := r.1,
      breakdown := r.2.1, remarks := r.2.2,
      raw_stdout := stdout, raw_stderr := stderr }

/-- The Strict Comparator outcome for one task: a literal was extracted
after the task's header and compares deep-equal to the expected value. -/
def strictPass (stdout : Str) (k : TaskKey) : Bool :=
  match extract_after_header stdout (HEADERS k) with
  | some v => compare_deep v (EXPECTED k)
  | Option.none => false

/-- The Tolerant Matcher outcome for one task. -/
def tolerantPass (stdout : Str) : TaskKey → Bool
  | TaskKey.joined => joined_fallback stdout
  | TaskKey.grouped => grouped_fallback stdout
  | TaskKey.sorted_result => sorted_fallback stdout
  | TaskKey.top_user => top_user_fallback stdout

/-- A task passes when the Strict Comparator or the Tolerant Matcher does. -/
def taskPass (stdout : Str) (k : TaskKey) : Bool :=
  strictPass stdout k || tolerantPass stdout k

end GradePandas

namespace GradePythonList

open Grading

/-- `POINTS` of grade_python_list.py. -/
def POINTS : TaskKey → Nat
  | TaskKey.joined => 15
  | TaskKey.grouped => 30
  | TaskKey.sorted_result => 15
  | TaskKey.top_user => 10

/-- `HEADERS` of grade_python_list.py (genuine emoji, unlike the pandas
grader). -/
def HEADERS : TaskKey → Str
  | TaskKey.joined => "✅ Joined Result:".toList
  | TaskKey.grouped => "✅ Grouped Result:".toList
  | TaskKey.sorted_result => "✅ Sorted Result:".toList
  | TaskKey.top_user => "🏆 Top User:".toList

/-- Diagnostic remarks appended by grade_python_list.py, modelled
structurally: `missing k` stands for `"Missing or unparsable output for:
<k>"`, `mismatch k e g` for `"<k>: expected <e>, got <g>"`, and
`scriptFailed` as in the pandas grader. -/
inductive Remark where
  | missing (k : TaskKey)
  | mismatch (k : TaskKey) (expected : PyVal) (got : Option PyVal)
  | scriptFailed (code : Int) (stderrTrunc : Str)

/-- `grade_from_stdout` of grade_python_list.py: extraction remarks for all
four headers first (in header order), then strict-comparison scoring per
task with a mismatch remark on every failure; there is no tolerant
fallback in this grader. -/
def grade_from_stdout (stdout : Str) : Nat × List (TaskKey × Nat) × List Remark :=
  let pJ := extract_after_header stdout (HEADERS TaskKey.joined)
  let pG := extract_after_header stdout (HEADERS TaskKey.grouped)
  let pS := extract_after_header stdout (HEADERS TaskKey.sorted_result)
  let pT := extract_after_header stdout (HEADERS TaskKey.top_user)
  let missingRem : List Remark :=
    (match pJ with | Option.none => [Remark.missing TaskKey.joined] | some _ => [])
    ++ (match pG with | Option.none => [Remark.missing TaskKey.grouped] | some _ => [])
    ++ (match pS with | Option.none => [Remark.missing TaskKey.sorted_result] | some _ => [])
    ++ (match pT with | Option.none => [Remark.missing TaskKey.top_user] | some _ => [])
  let okJ : Bool := match pJ with | some v => compare_deep v (EXPECTED TaskKey.joined) | Option.none => false
  let okG : Bool := match pG with | some v => compare_deep v (EXPECTED TaskKey.grouped) | Option.none => false
  let okS : Bool := match pS with | some v => compare_deep v (EXPECTED TaskKey.sorted_result) | Option.none => false
  let okT : Bool := match pT with | some v => compare_deep v (EXPECTED TaskKey.top_user) | Option.none => false
  let scoreRem : List Remark :=
    (if okJ then [] else [Remark.mismatch TaskKey.joined (EXPECTED TaskKey.joined) pJ])
    ++ (if okG then [] else [Remark.mismatch TaskKey.grouped (EXPECTED TaskKey.grouped) pG])
    ++ (if okS then [] else [Remark.mismatch TaskKey.sorted_result (EXPECTED TaskKey.sorted_result) pS])
    ++ (if okT then [] else [Remark.mismatch TaskKey.top_user (EXPECTED TaskKey.top_user) pT])
  let breakdown : List (TaskKey × Nat) :=
    [(TaskKey.joined, if okJ then POINTS TaskKey.joined else 0),
     (TaskKey.grouped, if okG then POINTS TaskKey.grouped else 0),
     (TaskKey.sorted_result, if okS then POINTS TaskKey.sorted_result else 0),
     (TaskKey.top_user, if okT then POINTS TaskKey.top_user else 0)]
  ((breakdown.map Prod.snd).sum, breakdown, missingRem ++ scoreRem)

/-- The per-submission record of grade_python_list.py. -/
structure GradeResult where
  student_id : Str
  filename : Str
  total : Nat
  breakdown : List (TaskKey × Nat)
  remarks : List Remark
  raw_stdout : Str
  raw_stderr : Str

/-- The per-submission body of `main` in grade_python_list.py (same
execution-failure short circuit as the pandas grader). -/
def assemble (sid fname stdout stderr : Str) (code : Int) : GradeResult :=
  if code ≠ 0 then
    { student_id := sid, filename := fname, total := 0,
      breakdown := [(TaskKey.joined, 0), (TaskKey.grouped, 0),
                    (TaskKey.sorted_result, 0), (TaskKey.top_user, 0)],
      remarks := [Remark.scriptFailed code (stderr.take 500)],
      raw_stdout := stdout, raw_stderr := stderr }
  else
    let r := grade_from_stdout stdout
    { student_id := sid, filename := fname, total := r.1,
      breakdown := r.2.1, remarks := r.2.2,
      raw_stdout := stdout, raw_stderr := stderr }

/-- The Strict Comparator outcome for one task in grade_python_list.py. -/
def strictPass (stdout : Str) (k : TaskKey) : Bool :=
  match extract_after_header stdout (HEADERS k) with
  | some v => compare_deep v (EXPECTED k)
  | Option.none => false

end GradePythonList

namespace Grading

/-- Build a string replacing the placeholder `*` by the single-quote
character (used to write Python literals containing quotes). -/
def qstr (s : String) : Str := s.toList.map (fun c => if c == '*' then sq else c)

/-- The literal line of Scenario A: the expected joined result as Python
prints it. -/
def scenarioALit : Str :=
  qstr "[\x7b*name*: *Alice*, *total*: 100\x7d, \x7b*name*: *Alice*, *total*: 150\x7d, \x7b*name*: *Bob*, *total*: 200\x7d]"

/-- Scenario A of the specification: the genuine check-mark header line
followed by the expected joined literal. -/
def scenarioA : Str := ("✅ Joined Result:".toList) ++ ['\n'] ++ scenarioALit

/-- A tabular-style output on which all four tolerant pandas matchers
succeed. -/
def caseDemo : Str :=
  ("Name: Alice\nAlice 100\nAlice 150\nBob 200\nAlice 2 250\nBob 1 200\ntotal_spent 250").toList

/-- The same output with every letter lowered: it differs from `caseDemo`
only in letter case. -/
def caseDemoLower : Str := caseDemo.map Char.toLower

end Grading

open Grading

/-- C2: For every submission whose execution returns a non-zero exit code
(including the timeout code 124), both graders assemble a record with total
0, a breakdown mapping each of the four task keys to 0, and exactly the one
script-failure remark carrying the exit code and the stderr excerpt
truncated to 500 characters — for every captured output, so extraction and
comparison never influence the record. -/
theorem C2_exec_failure_dominates (sid fname stdout stderr : Str) (code : Int)
    (h : code ≠ 0) :
    ((GradePandas.assemble sid fname stdout stderr code).total = 0
      ∧ (GradePandas.assemble sid fname stdout stderr code).breakdown =
          [(TaskKey.joined, 0), (TaskKey.grouped, 0),
           (TaskKey.sorted_result, 0), (TaskKey.top_user, 0)]
      ∧ (GradePandas.assemble sid fname stdout stderr code).remarks =
          [GradePandas.Remark.scriptFailed code (stderr.take 500)])
    ∧ ((GradePythonList.assemble sid fname stdout stderr code).total = 0
      ∧ (GradePythonList.assemble sid fname stdout stderr code).breakdown =
          [(TaskKey.joined, 0), (TaskKey.grouped, 0),
           (TaskKey.sorted_result, 0), (TaskKey.top_user, 0)]
      ∧ (GradePythonList.assemble sid fname stdout stderr code).remarks =
          [GradePythonList.Remark.scriptFailed code (stderr.take 500)]) := by
  refine ⟨⟨?_, ?_, ?_⟩, ⟨?_, ?_, ?_⟩⟩ <;>
    simp [GradePandas.assemble, GradePythonList.assemble, h]

/-- Witness for C2 at the timeout exit code 124 with concrete inputs. -/
theorem C2_exec_failure_dominates_witness :
    (124 : Int) ≠ 0
    ∧ (GradePandas.assemble [] [] ("out".toList) ("err".toList) 124).total = 0
    ∧ (GradePythonList.assemble [] [] ("out".toList) ("err".toList) 124).remarks =
        [GradePythonList.Remark.scriptFailed 124 (("err".toList).take 500)] :=
  ⟨by decide,
   (C2_exec_failure_dominates [] [] ("out".toList) ("err".toList) 124 (by decide)).1.1,
   (C2_exec_failure_dominates [] [] ("out".toList) ("err".toList) 124 (by decide)).2.2.2⟩

/-- C9: For every input text, each grader's breakdown has exactly the key
sequence joined, grouped, sorted_result, top_user, and the total is bounded
by the sum of the configured point values: 40 for the pandas grader and 70
for the python-list grader. -/
theorem C9_breakdown_keys_and_total_bound (stdout : Str) :
    ((GradePandas.grade_from_stdout stdout).2.1.map Prod.fst =
      [TaskKey.joined, TaskKey.grouped, TaskKey.sorted_result, TaskKey.top_user])
    ∧ (GradePandas.grade_from_stdout stdout).1 ≤ 40
    ∧ ((GradePythonList.grade_from_stdout stdout).2.1.map Prod.fst =
      [TaskKey.joined, TaskKey.grouped, TaskKey.sorted_result, TaskKey.top_user])
    ∧ (GradePythonList.grade_from_stdout stdout).1 ≤ 70 := by
  refine ⟨?_, ?_, ?_, ?_⟩
  · simp [GradePandas.grade_from_stdout]
  · simp only [GradePandas.grade_from_stdout, List.map_cons, List.map_nil,
      List.sum_cons, List.sum_nil]
    repeat' split
    all_goals simp [GradePandas.POINTS]
  · simp [GradePythonList.grade_from_stdout]
  · simp only [GradePythonList.grade_from_stdout, List.map_cons, List.map_nil,
      List.sum_cons, List.sum_nil]
    repeat' split
    all_goals simp [GradePythonList.POINTS]

/-- C10: The two top-user evidence patterns of the pandas grader match
case-insensitively (`name: ALICE` and `TOTAL_SPENT 250` count as evidence),
while the join, group and sort evidence patterns are case-sensitive: on
`caseDemo` all four tolerant checks pass, and on the same text lowered
(`caseDemoLower`, differing only in letter case) the top-user check still
passes — and the grader still awards the top-user task its full points —
while the other three tolerant checks fail and those tasks score zero. -/
theorem C10_top_user_ignorecase :
    ciStarSearch ("Name:".toList) ("Alice".toList) (("name: ALICE").toList) = true
    ∧ ciPlusSearch ("total_spent".toList) ("250".toList) (("TOTAL_SPENT 250").toList) = true
    ∧ GradePandas.top_user_fallback (("name: ALICE\nTOTAL_SPENT 250").toList) = true
    ∧ caseDemoLower = caseDemo.map Char.toLower
    ∧ GradePandas.joined_fallback caseDemo = true
    ∧ GradePandas.grouped_fallback caseDemo = true
    ∧ GradePandas.sorted_fallback caseDemo = true
    ∧ GradePandas.top_user_fallback caseDemo = true
    ∧ GradePandas.top_user_fallback caseDemoLower = true
    ∧ GradePandas.joined_fallback caseDemoLower = false
    ∧ GradePandas.grouped_fallback caseDemoLower = false
    ∧ GradePandas.sorted_fallback caseDemoLower = false
    ∧ (GradePandas.grade_from_stdout caseDemoLower).2.1.lookup TaskKey.top_user =
        some (GradePandas.POINTS TaskKey.top_user)
    ∧ (GradePandas.grade_from_stdout caseDemoLower).2.1.lookup TaskKey.joined = some 0
    ∧ (GradePandas.grade_from_stdout caseDemoLower).2.1.lookup TaskKey.grouped = some 0
    ∧ (GradePandas.grade_from_stdout caseDemoLower).2.1.lookup TaskKey.sorted_result =
        some 0 := by
  refine ⟨?_, ?_, ?_, ?_, ?_, ?_, ?_, ?_, ?_, ?_, ?_, ?_, ?_, ?_, ?_, ?_⟩ <;> decide

/-- C5: Evaluation of Scenario A on both graders.  The python-list grader
awards the join task its full 15 points through the Strict Comparator (the
literal after the genuine header parses and compares deep-equal to the
expected value).  The pandas grader stores mojibake header constants, so on
the same output its extraction finds no header and the strict path fails;
the join task is still awarded its full 5 points, but only through the
tolerant join matcher. -/
theorem C5_scenario_a_evaluation :
    ((GradePythonList.grade_from_stdout scenarioA).2.1.lookup TaskKey.joined
        = some (GradePythonList.POINTS TaskKey.joined))
    ∧ GradePythonList.strictPass scenarioA TaskKey.joined = true
    ∧ extract_after_header scenarioA (GradePythonList.HEADERS TaskKey.joined)
        = some (EXPECTED TaskKey.joined)
    ∧ (extract_after_header scenarioA (GradePandas.HEADERS TaskKey.joined)).isSome = false
    ∧ GradePandas.strictPass scenarioA TaskKey.joined = false
    ∧ GradePandas.joined_fallback scenarioA = true
    ∧ ((GradePandas.grade_from_stdout scenarioA).2.1.lookup TaskKey.joined
        = some (GradePandas.POINTS TaskKey.joined)) := by
  refine ⟨by decide, by decide, by rfl, by decide, by decide, by decide, by decide⟩

/-- Scanning lines for a marker that no line matches yields nothing. -/
theorem extractScan_not_found (L : List Str) (header : Str)
    (h : ∀ l ∈ L, pstrip l ≠ header) : extractScan L header = Option.none := by
  induction L with
  | nil => rfl
  | cons l ls ih =>
    have hl : (pstrip l == header) = false :=
      beq_eq_false_iff_ne.mpr (h l (List.mem_cons_self l ls))
    simp only [extractScan, hl, Bool.false_eq_true, if_false]
    exact ih (fun x hx => h x (List.mem_cons_of_mem _ hx))

/-- Scanning lines whose first marker hit is `l` returns the parse of the
first non-blank line after it, whatever comes later. -/
theorem extractScan_found (pre : List Str) (l : Str) (post : List Str) (header : Str)
    (hpre : ∀ x ∈ pre, pstrip x ≠ header) (hl : pstrip l = header) :
    extractScan (pre ++ l :: post) header =
      (match firstNonBlank post with
       | some nxt => safe_literal_eval nxt
       | Option.none => Option.none) := by
  induction pre with
  | nil =>
    have hb : (pstrip l == header) = true := beq_iff_eq.mpr hl
    simp only [List.nil_append, extractScan, hb, if_true]
  | cons p ps ih =>
    have hp : (pstrip p == header) = false :=
      beq_eq_false_iff_ne.mpr (hpre p (List.mem_cons_self p ps))
    simp only [List.cons_append, extractScan, hp, Bool.false_eq_true, if_false]
    exact ih (fun x hx => hpre x (List.mem_cons_of_mem _ hx))

/-- C4: The extractor considers only the first line whose stripped content
equals the marker: when no line matches it returns `none`, and when the
first matching line is `l` (its predecessors all differing from the marker)
the result is determined by the lines after `l` alone — the parse of the
first subsequent non-blank stripped line, which is `safe_literal_eval` of
that line (so `none` when unparseable) and `none` when only blank lines
follow.  The extractor is a plain function of its two inputs. -/
theorem C4_extractor_first_marker_only (stdout header : Str) :
    ((∀ l ∈ splitlines stdout, pstrip l ≠ header) →
        extract_after_header stdout header = Option.none)
    ∧ (∀ pre l post, splitlines stdout = pre ++ l :: post →
        (∀ x ∈ pre, pstrip x ≠ header) → pstrip l = header →
        extract_after_header stdout header =
          (match firstNonBlank post with
           | some nxt => safe_literal_eval nxt
           | Option.none => Option.none)) := by
  constructor
  · intro h
    exact extractScan_not_found _ _ h
  · intro pre l post heq hpre hl
    unfold extract_after_header
    rw [heq]
    exact extractScan_found pre l post header hpre hl

/-- Witness for C4: in the output `h / x / h / 7` with marker `h`, only the
first `h` line counts, so the result is the (failing) parse of `x` — the
later `h` followed by the parseable `7` is never considered. -/
theorem C4_extractor_first_marker_only_witness :
    splitlines (("h\nx\nh\n7").toList) =
        [] ++ ("h".toList) :: [("x".toList), ("h".toList), ("7".toList)]
    ∧ pstrip ("h".toList) = ("h".toList)
    ∧ extract_after_header (("h\nx\nh\n7").toList) ("h".toList) =
        (match firstNonBlank [("x".toList), ("h".toList), ("7".toList)] with
         | some nxt => safe_literal_eval nxt
         | Option.none => Option.none) :=
  ⟨by decide, by decide,
   (C4_extractor_first_marker_only (("h\nx\nh\n7").toList) ("h".toList)).2
     [] ("h".toList) [("x".toList), ("h".toList), ("7".toList)]
     (by decide) (by simp) (by decide)⟩

/-- First projection of the if-chain produced for one task by the pandas
scorer. -/
theorem taskChain_fst {β : Type} (c d : Bool) (P : Nat) (r : β) :
    (if c then (P, ([] : List β)) else if d then (P, ([] : List β)) else (0, [r])).1 =
      (if c || d then P else 0) := by
  cases c <;> cases d <;> simp

/-- Second projection of the if-chain produced for one task by the pandas
scorer. -/
theorem taskChain_snd {β : Type} (c d : Bool) (P : Nat) (r : β) :
    (if c then (P, ([] : List β)) else if d then (P, ([] : List β)) else (0, [r])).2 =
      (if c || d then ([] : List β) else [r]) := by
  cases c <;> cases d <;> simp

/-- Membership in a conditionally-empty one-element list. -/
theorem mem_ite_nil1 {β : Type} (c : Bool) (x y : β) :
    (x ∈ (if c then ([] : List β) else [y])) ↔ (c = false ∧ x = y) := by
  cases c <;> simp

/-- C1: Per task and per captured output, the pandas grader awards the
task's full point value iff the Strict Comparator or that task's Tolerant
Matcher passes, and appends the task's mismatch remark iff both fail; the
python-list grader (which has no tolerant matcher) awards iff the Strict
Comparator passes and appends the task's mismatch remark iff it fails.
Each task's entry depends only on its own extraction and matcher, so one
task's extraction failure never affects the others. -/
theorem C1_award_iff_strict_or_tolerant (stdout : Str) :
    ((GradePandas.grade_from_stdout stdout).2.1 =
      [(TaskKey.joined, if GradePandas.taskPass stdout TaskKey.joined
          then GradePandas.POINTS TaskKey.joined else 0),
       (TaskKey.grouped, if GradePandas.taskPass stdout TaskKey.grouped
          then GradePandas.POINTS TaskKey.grouped else 0),
       (TaskKey.sorted_result, if GradePandas.taskPass stdout TaskKey.sorted_result
          then GradePandas.POINTS TaskKey.sorted_result else 0),
       (TaskKey.top_user, if GradePandas.taskPass stdout TaskKey.top_user
          then GradePandas.POINTS TaskKey.top_user else 0)])
    ∧ (∀ k, GradePandas.Remark.mismatch k ∈ (GradePandas.grade_from_stdout stdout).2.2 ↔
        GradePandas.taskPass stdout k = false)
    ∧ ((GradePythonList.grade_from_stdout stdout).2.1 =
      [(TaskKey.joined, if GradePythonList.strictPass stdout TaskKey.joined
          then GradePythonList.POINTS TaskKey.joined else 0),
       (TaskKey.grouped, if GradePythonList.strictPass stdout TaskKey.grouped
          then GradePythonList.POINTS TaskKey.grouped else 0),
       (TaskKey.sorted_result, if GradePythonList.strictPass stdout TaskKey.sorted_result
          then GradePythonList.POINTS TaskKey.sorted_result else 0),
       (TaskKey.top_user, if GradePythonList.strictPass stdout TaskKey.top_user
          then GradePythonList.POINTS TaskKey.top_user else 0)])
    ∧ (∀ k, GradePythonList.Remark.mismatch k (EXPECTED k)
          (extract_after_header stdout (GradePythonList.HEADERS k)) ∈
            (GradePythonList.grade_from_stdout stdout).2.2 ↔
        GradePythonList.strictPass stdout k = false) := by
  refine ⟨?_, ?_, ?_, ?_⟩
  · simp only [GradePandas.grade_from_stdout, taskChain_fst,
      GradePandas.taskPass, GradePandas.strictPass, GradePandas.tolerantPass]
  · intro k
    simp only [GradePandas.grade_from_stdout, taskChain_snd, List.mem_append, mem_ite_nil1,
      GradePandas.taskPass, GradePandas.strictPass, GradePandas.tolerantPass]
    cases k <;> simp
  · simp only [GradePythonList.grade_from_stdout, GradePythonList.strictPass]
  · intro k
    cases k <;>
      simp only [GradePythonList.grade_from_stdout, List.mem_append, mem_ite_nil1] <;>
      cases hJ : extract_after_header stdout (GradePythonList.HEADERS TaskKey.joined) <;>
      cases hG : extract_after_header stdout (GradePythonList.HEADERS TaskKey.grouped) <;>
      cases hS : extract_after_header stdout (GradePythonList.HEADERS TaskKey.sorted_result) <;>
      cases hT : extract_after_header stdout (GradePythonList.HEADERS TaskKey.top_user) <;>
      simp [GradePythonList.strictPass, hJ, hG, hS, hT]

/-- A string of whitespace characters only. -/
def allSpace (w : Str) : Prop := ∀ c ∈ w, isPySpace c = true

/-- Dropping whitespace from an all-whitespace prefix followed by a
non-whitespace character stops exactly at that character. -/
theorem dropWhile_allspace (w : Str) (b0 : Char) (bt : Str)
    (hw : allSpace w) (hb : isPySpace b0 = false) :
    (w ++ b0 :: bt).dropWhile isPySpace = b0 :: bt := by
  induction w with
  | nil => simp [List.dropWhile, hb]
  | cons c w ih =>
    have hc : isPySpace c = true := hw c (List.mem_cons_self c w)
    simp only [List.cons_append, List.dropWhile, hc]
    exact ih (fun d hd => hw d (List.mem_cons_of_mem _ hd))

/-- Characterization of `wsChunk1`: it succeeds with remainder `t` exactly
when the input is a non-empty whitespace run, the literal, then `t` (for a
literal starting with a non-whitespace character). -/
theorem wsChunk1_eq_some_iff (b0 : Char) (bt : Str) (hb : isPySpace b0 = false)
    (s t : Str) :
    wsChunk1 (b0 :: bt) s = some t ↔
      ∃ w, w ≠ [] ∧ allSpace w ∧ s = w ++ (b0 :: bt) ++ t := by
  cases s with
  | nil =>
    simp only [wsChunk1]
    constructor
    · intro h; exact absurd h (by simp)
    · rintro ⟨w, hwne, _, heq⟩
      cases w with
      | nil => exact absurd rfl hwne
      | cons c w2 => exact absurd heq (by simp)
  | cons c rest =>
    by_cases hc : isPySpace c = true
    · simp only [wsChunk1, hc, if_true]
      constructor
      · intro h
        by_cases hp : (b0 :: bt).isPrefixOf (rest.dropWhile isPySpace) = true
        · rw [if_pos hp] at h
          obtain ⟨r0, hr0⟩ := List.isPrefixOf_iff_prefix.mp hp
          refine ⟨c :: rest.takeWhile isPySpace, by simp, ?_, ?_⟩
          · intro d hd
            rcases List.mem_cons.mp hd with h1 | h2
            · exact h1 ▸ hc
            · exact List.mem_takeWhile_imp h2
          · have hsplit : rest.takeWhile isPySpace ++ rest.dropWhile isPySpace = rest :=
              List.takeWhile_append_dropWhile isPySpace rest
            have ht : t = (rest.dropWhile isPySpace).drop (b0 :: bt).length :=
              (Option.some.inj h).symm
            have ht2 : t = r0 := by rw [ht, ← hr0, List.drop_left]
            rw [ht2]
            calc c :: rest
                = c :: (rest.takeWhile isPySpace ++ rest.dropWhile isPySpace) := by rw [hsplit]
              _ = c :: (rest.takeWhile isPySpace ++ ((b0 :: bt) ++ r0)) := by rw [hr0]
              _ = (c :: rest.takeWhile isPySpace) ++ (b0 :: bt) ++ r0 := by simp
        · rw [if_neg hp] at h
          exact absurd h (by simp)
      · rintro ⟨w, hwne, hsp, heq⟩
        cases w with
        | nil => exact absurd rfl hwne
        | cons c2 w2 =>
          have hc2 : c2 = c := by
            have := congrArg (fun l => l.headI) heq
            simpa using this.symm
          subst hc2
          have hrest : rest = w2 ++ (b0 :: (bt ++ t)) := by
            have := congrArg List.tail heq
            simpa using this
          have hw2 : allSpace w2 := fun d hd => hsp d (List.mem_cons_of_mem _ hd)
          have hdrop : rest.dropWhile isPySpace = b0 :: (bt ++ t) := by
            rw [hrest]; exact dropWhile_allspace w2 b0 (bt ++ t) hw2 hb
          have hpre : (b0 :: bt).isPrefixOf (rest.dropWhile isPySpace) = true := by
            rw [hdrop]
            exact List.isPrefixOf_iff_prefix.mpr ⟨t, by simp⟩
          rw [if_pos hpre, hdrop]
          have heq2 : (b0 :: (bt ++ t)).drop (b0 :: bt).length = t := by
            have hassoc : b0 :: (bt ++ t) = (b0 :: bt) ++ t := by simp
            rw [hassoc, List.drop_left]
          rw [heq2]
    · simp only [wsChunk1, hc, if_false]
      constructor
      · intro h; exact absurd h (by simp)
      · rintro ⟨w, hwne, hsp, heq⟩
        cases w with
        | nil => exact absurd rfl hwne
        | cons c2 w2 =>
          have hc2 : c2 = c := by
            have := congrArg (fun l => l.headI) heq
            simpa using this.symm
          exact absurd (hc2 ▸ hsp c2 (List.mem_cons_self c2 w2)) (by simp [hc2, hc])

/-- Declarative evidence for the row pattern `name\s+count\s+total` at
position `i` of `s`: after dropping `i` characters the text starts with the
name, a non-empty whitespace run, the count literal, another whitespace run
and the total literal. -/
def rowEvidence (a b c : Str) (s : Str) (i : Nat) : Prop :=
  ∃ w1 w2 r, w1 ≠ [] ∧ w2 ≠ [] ∧ allSpace w1 ∧ allSpace w2 ∧
    s.drop i = a ++ w1 ++ b ++ w2 ++ c ++ r

/-- `gPatAt` matches exactly the declarative row evidence (for literals
starting with non-whitespace characters). -/
theorem gPatAt_iff_evidence (a : Str) (b0 c0 : Char) (bt ct : Str)
    (hb : isPySpace b0 = false) (hc : isPySpace c0 = false) (s : Str) (i : Nat) :
    gPatAt a (b0 :: bt) (c0 :: ct) (s.drop i) = true ↔
      rowEvidence a (b0 :: bt) (c0 :: ct) s i := by
  unfold gPatAt rowEvidence
  constructor
  · intro h
    by_cases hp : a.isPrefixOf (s.drop i) = true
    · rw [if_pos hp] at h
      obtain ⟨r0, hr0⟩ := List.isPrefixOf_iff_prefix.mp hp
      cases hch : wsChunk1 (b0 :: bt) ((s.drop i).drop a.length) with
      | none => rw [hch] at h; exact absurd h (by simp)
      | some t1 =>
        rw [hch] at h
        have h2 : (wsChunk1 (c0 :: ct) t1).isSome = true := h
        obtain ⟨t2, ht2⟩ := Option.isSome_iff_exists.mp h2
        obtain ⟨w1, hw1ne, hw1sp, ht1⟩ := (wsChunk1_eq_some_iff b0 bt hb _ t1).mp hch
        obtain ⟨w2, hw2ne, hw2sp, htt⟩ := (wsChunk1_eq_some_iff c0 ct hc _ t2).mp ht2
        refine ⟨w1, w2, t2, hw1ne, hw2ne, hw1sp, hw2sp, ?_⟩
        have hdropa : (s.drop i).drop a.length = r0 := by rw [← hr0, List.drop_left]
        have hr : r0 = w1 ++ (b0 :: bt) ++ t1 := by rw [← hdropa, ht1]
        rw [← hr0, hr, htt]
        simp
    · rw [if_neg hp] at h
      exact absurd h (by simp)
  · rintro ⟨w1, w2, r, hw1ne, hw2ne, hw1sp, hw2sp, heq⟩
    have hp : a.isPrefixOf (s.drop i) = true := by
      apply List.isPrefixOf_iff_prefix.mpr
      exact ⟨w1 ++ (b0 :: bt) ++ w2 ++ (c0 :: ct) ++ r, by rw [heq]; simp⟩
    rw [if_pos hp]
    have hdropa : (s.drop i).drop a.length = w1 ++ (b0 :: bt) ++ (w2 ++ (c0 :: ct) ++ r) := by
      rw [heq]
      have hassoc : a ++ w1 ++ (b0 :: bt) ++ w2 ++ (c0 :: ct) ++ r =
          a ++ (w1 ++ (b0 :: bt) ++ (w2 ++ (c0 :: ct) ++ r)) := by simp
      rw [hassoc, List.drop_left]
    have hch1 : wsChunk1 (b0 :: bt) ((s.drop i).drop a.length) =
        some (w2 ++ (c0 :: ct) ++ r) := by
      apply (wsChunk1_eq_some_iff b0 bt hb _ _).mpr
      exact ⟨w1, hw1ne, hw1sp, by rw [hdropa]⟩
    rw [hch1]
    show (wsChunk1 (c0 :: ct) (w2 ++ (c0 :: ct) ++ r)).isSome = true
    have hch2 : wsChunk1 (c0 :: ct) (w2 ++ (c0 :: ct) ++ r) = some r := by
      apply (wsChunk1_eq_some_iff c0 ct hc _ _).mpr
      exact ⟨w2, hw2ne, hw2sp, rfl⟩
    rw [hch2]
    rfl

/-- `gPatFirst` returns `some i` exactly when the pattern matches at `i`
and at no earlier position (leftmost-match semantics of `re.search`). -/
theorem gPatFirst_some_iff (a b c : Str) (s : Str) : ∀ i : Nat,
    gPatFirst a b c s = some i ↔
      (gPatAt a b c (s.drop i) = true ∧ ∀ j < i, gPatAt a b c (s.drop j) = false) := by
  induction s with
  | nil =>
    intro i
    by_cases h : gPatAt a b c [] = true
    · simp only [gPatFirst, h, if_true, List.drop_nil]
      constructor
      · intro hi
        have : i = 0 := (Option.some.inj hi).symm
        subst this
        exact ⟨trivial, fun j hj => absurd hj (by omega)⟩
      · rintro ⟨_, hmin⟩
        rcases Nat.eq_zero_or_pos i with h0 | h0
        · subst h0; rfl
        · exact absurd (hmin 0 h0) (by simp)
    · have h2 : gPatAt a b c [] = false := by
        cases h3 : gPatAt a b c [] with
        | true => exact absurd h3 h
        | false => rfl
      simp [gPatFirst, h2]
  | cons x rest ih =>
    intro i
    by_cases h : gPatAt a b c (x :: rest) = true
    · simp only [gPatFirst, h, if_true]
      constructor
      · intro hi
        have : i = 0 := (Option.some.inj hi).symm
        subst this
        exact ⟨by simpa using h, fun j hj => absurd hj (by omega)⟩
      · rintro ⟨_, hmin⟩
        rcases Nat.eq_zero_or_pos i with h0 | h0
        · subst h0; rfl
        · exact absurd h (by simpa using hmin 0 h0)
    · have h2 : gPatAt a b c (x :: rest) = false := by
        cases h3 : gPatAt a b c (x :: rest) with
        | true => exact absurd h3 h
        | false => rfl
      simp only [gPatFirst, h2, Bool.false_eq_true, if_false]
      cases i with
      | zero =>
        constructor
        · intro hi
          rcases Option.map_eq_some'.mp hi with ⟨i0, _, hsucc⟩
          exact absurd hsucc (by omega)
        · rintro ⟨hat, _⟩
          exact absurd (by simpa using hat) h
      | succ i0 =>
        constructor
        · intro hi
          rcases Option.map_eq_some'.mp hi with ⟨i1, hi1, hsucc⟩
          have hi10 : i1 = i0 := by omega
          rw [hi10] at hi1
          obtain ⟨hat, hmin⟩ := (ih i0).mp hi1
          refine ⟨by simpa using hat, ?_⟩
          intro j hj
          cases j with
          | zero => simpa using h2
          | succ j0 =>
            have : j0 < i0 := by omega
            simpa using hmin j0 this
        · rintro ⟨hat, hmin⟩
          have hre : gPatFirst a b c rest = some i0 := by
            apply (ih i0).mpr
            refine ⟨by simpa using hat, ?_⟩
            intro j hj
            have := hmin (j + 1) (by omega)
            simpa using this
          rw [hre]
          rfl

/-- When `gPatFirst` finds nothing, the pattern matches at no position. -/
theorem gPatFirst_none_all (a b c : Str) : ∀ (s : Str),
    gPatFirst a b c s = Option.none → ∀ i, gPatAt a b c (s.drop i) = false := by
  intro s
  induction s with
  | nil =>
    intro h i
    simp only [List.drop_nil]
    by_cases hat : gPatAt a b c [] = true
    · simp [gPatFirst, hat] at h
    · cases h3 : gPatAt a b c [] with
      | true => exact absurd h3 hat
      | false => rfl
  | cons x rest ih =>
    intro h i
    by_cases hat : gPatAt a b c (x :: rest) = true
    · simp [gPatFirst, hat] at h
    · have h2 : gPatAt a b c (x :: rest) = false := by
        cases h3 : gPatAt a b c (x :: rest) with
        | true => exact absurd h3 hat
        | false => rfl
      simp only [gPatFirst, h2, Bool.false_eq_true, if_false, Option.map_eq_none'] at h
      cases i with
      | zero => simpa using h2
      | succ i0 => simpa using ih h i0

/-- `splitAfterFirst` returns the text after the occurrence at `i` when no
occurrence starts earlier. -/
theorem splitAfterFirst_some_of (marker : Str) : ∀ (s t : Str) (i : Nat),
    s.drop i = marker ++ t → (∀ j < i, ∀ u, s.drop j ≠ marker ++ u) →
    splitAfterFirst marker s = some t := by
  intro s
  induction s with
  | nil =>
    intro t i hi _
    simp only [List.drop_nil] at hi
    have hm : marker = [] ∧ t = [] := by
      constructor
      · cases marker with
        | nil => rfl
        | cons c m => exact absurd hi.symm (by simp)
      · cases marker with
        | nil => simpa using hi.symm
        | cons c m => exact absurd hi.symm (by simp)
    simp [splitAfterFirst, hm.1, hm.2]
  | cons x rest ih =>
    intro t i hi hmin
    cases i with
    | zero =>
      simp only [List.drop_zero] at hi
      have hp : marker.isPrefixOf (x :: rest) = true :=
        List.isPrefixOf_iff_prefix.mpr ⟨t, hi.symm⟩
      simp only [splitAfterFirst, hp, if_true]
      rw [hi, List.drop_left]
    | succ i0 =>
      have hp : marker.isPrefixOf (x :: rest) = false := by
        cases h3 : marker.isPrefixOf (x :: rest) with
        | false => rfl
        | true =>
          obtain ⟨u, hu⟩ := List.isPrefixOf_iff_prefix.mp h3
          exact absurd ((List.drop_zero _).symm ▸ hu.symm)
            (hmin 0 (by omega) u)
      simp only [splitAfterFirst, hp, Bool.false_eq_true, if_false]
      apply ih t i0 (by simpa using hi)
      intro j hj u
      have := hmin (j + 1) (by omega) u
      simpa using this

/-- `splitAfterFirst` returns nothing when the marker occurs nowhere. -/
theorem splitAfterFirst_none_of (marker : Str) (hm : marker ≠ []) : ∀ (s : Str),
    (∀ i, ∀ u, s.drop i ≠ marker ++ u) → splitAfterFirst marker s = Option.none := by
  intro s
  induction s with
  | nil =>
    intro _
    have : marker.isEmpty = false := by
      cases marker with
      | nil => exact absurd rfl hm
      | cons c m => rfl
    simp [splitAfterFirst, this]
  | cons x rest ih =>
    intro h
    have hp : marker.isPrefixOf (x :: rest) = false := by
      cases h3 : marker.isPrefixOf (x :: rest) with
      | false => rfl
      | true =>
        obtain ⟨u, hu⟩ := List.isPrefixOf_iff_prefix.mp h3
        exact absurd ((List.drop_zero _).symm ▸ hu.symm) (h 0 u)
    simp only [splitAfterFirst, hp, Bool.false_eq_true, if_false]
    apply ih
    intro i u
    have := h (i + 1) u
    simpa using this

/-- The Alice aggregate-row pattern matches at a window position exactly
when the declarative evidence holds there. -/
theorem evidenceA_iff (win : Str) (i : Nat) :
    gPatAt GradePandas.aliceTxt ("2".toList) ("250".toList) (win.drop i) = true ↔
      rowEvidence GradePandas.aliceTxt ("2".toList) ("250".toList) win i :=
  gPatAt_iff_evidence GradePandas.aliceTxt '2' '2' [] ['5', '0']
    (by decide) (by decide) win i

/-- The Bob aggregate-row pattern matches at a window position exactly when
the declarative evidence holds there. -/
theorem evidenceB_iff (win : Str) (i : Nat) :
    gPatAt GradePandas.bobTxt ("1".toList) ("200".toList) (win.drop i) = true ↔
      rowEvidence GradePandas.bobTxt ("1".toList) ("200".toList) win i :=
  gPatAt_iff_evidence GradePandas.bobTxt '1' '2' [] ['0', '0']
    (by decide) (by decide) win i

/-- `gSearch` succeeds exactly when the pattern matches at some position. -/
theorem gSearch_iff_exists_at (a b c : Str) (s : Str) :
    gSearch a b c s = true ↔ ∃ i, gPatAt a b c (s.drop i) = true := by
  unfold gSearch
  constructor
  · intro h
    obtain ⟨i0, hi0⟩ := Option.isSome_iff_exists.mp h
    exact ⟨i0, ((gPatFirst_some_iff a b c s i0).mp hi0).1⟩
  · rintro ⟨i, hi⟩
    cases hf : gPatFirst a b c s with
    | none => exact absurd hi (by simp [gPatFirst_none_all a b c s hf i])
    | some ib => rfl

/-- C3: The sort task's tolerant check passes exactly when, inside its
search window (the text after the first occurrence of the grader's Sorted
Result marker when present, otherwise the whole output), the leftmost Alice
row evidence (`Alice`, whitespace, `2`, whitespace, `250`) starts strictly
before the leftmost Bob row evidence (`Bob`, whitespace, `1`, whitespace,
`200`); the second and third conjuncts characterize the window, and the
last shows a window where Bob's evidence precedes Alice's: both patterns
are present yet the check fails. -/
theorem C3_sorted_ordering (stdout : Str) :
    (GradePandas.sorted_fallback stdout = true ↔
      ∃ ia ib, ia < ib
        ∧ rowEvidence GradePandas.aliceTxt ("2".toList) ("250".toList)
            (GradePandas.sortedWindow stdout) ia
        ∧ (∀ j < ia, ¬ rowEvidence GradePandas.aliceTxt ("2".toList) ("250".toList)
            (GradePandas.sortedWindow stdout) j)
        ∧ rowEvidence GradePandas.bobTxt ("1".toList) ("200".toList)
            (GradePandas.sortedWindow stdout) ib
        ∧ (∀ j < ib, ¬ rowEvidence GradePandas.bobTxt ("1".toList) ("200".toList)
            (GradePandas.sortedWindow stdout) j))
    ∧ (∀ i t, stdout.drop i = GradePandas.sortedMarker ++ t →
        (∀ j < i, ∀ u, stdout.drop j ≠ GradePandas.sortedMarker ++ u) →
        GradePandas.sortedWindow stdout = t)
    ∧ ((∀ i, ∀ u, stdout.drop i ≠ GradePandas.sortedMarker ++ u) →
        GradePandas.sortedWindow stdout = stdout)
    ∧ (gSearch GradePandas.aliceTxt ("2".toList) ("250".toList)
          (("Bob 1 200 Alice 2 250").toList) = true
      ∧ gSearch GradePandas.bobTxt ("1".toList) ("200".toList)
          (("Bob 1 200 Alice 2 250").toList) = true
      ∧ GradePandas.sorted_fallback (("Bob 1 200 Alice 2 250").toList) = false) := by
  refine ⟨?_, ?_, ?_, by decide⟩
  · simp only [GradePandas.sorted_fallback]
    cases hA : gPatFirst GradePandas.aliceTxt ("2".toList) ("250".toList)
        (GradePandas.sortedWindow stdout) with
    | none =>
      cases hB : gPatFirst GradePandas.bobTxt ("1".toList) ("200".toList)
          (GradePandas.sortedWindow stdout) with
      | none =>
        show false = true ↔ _
        constructor
        · intro h; exact absurd h (by simp)
        · rintro ⟨ia, ib, _, heA, _, _, _⟩
          have hat := (evidenceA_iff (GradePandas.sortedWindow stdout) ia).mpr heA
          exact absurd hat (by rw [gPatFirst_none_all _ _ _ _ hA ia]; simp)
      | some ib0 =>
        show false = true ↔ _
        constructor
        · intro h; exact absurd h (by simp)
        · rintro ⟨ia, ib, _, heA, _, _, _⟩
          have hat := (evidenceA_iff (GradePandas.sortedWindow stdout) ia).mpr heA
          exact absurd hat (by rw [gPatFirst_none_all _ _ _ _ hA ia]; simp)
    | some ia0 =>
      cases hB : gPatFirst GradePandas.bobTxt ("1".toList) ("200".toList)
          (GradePandas.sortedWindow stdout) with
      | none =>
        show false = true ↔ _
        constructor
        · intro h; exact absurd h (by simp)
        · rintro ⟨ia, ib, _, _, _, heB, _⟩
          have hbt := (evidenceB_iff (GradePandas.sortedWindow stdout) ib).mpr heB
          exact absurd hbt (by rw [gPatFirst_none_all _ _ _ _ hB ib]; simp)
      | some ib0 =>
        show decide (ia0 < ib0) = true ↔ _
        rw [decide_eq_true_iff]
        obtain ⟨hatA, hminA⟩ := (gPatFirst_some_iff _ _ _ _ ia0).mp hA
        obtain ⟨hatB, hminB⟩ := (gPatFirst_some_iff _ _ _ _ ib0).mp hB
        constructor
        · intro hlt
          refine ⟨ia0, ib0, hlt,
            (evidenceA_iff _ ia0).mp hatA,
            fun j hj hev => absurd ((evidenceA_iff _ j).mpr hev)
              (by rw [hminA j hj]; simp),
            (evidenceB_iff _ ib0).mp hatB,
            fun j hj hev => absurd ((evidenceB_iff _ j).mpr hev)
              (by rw [hminB j hj]; simp)⟩
        · rintro ⟨ia, ib, hlt, heA, hminA2, heB, hminB2⟩
          have hA2 : gPatFirst GradePandas.aliceTxt ("2".toList) ("250".toList)
              (GradePandas.sortedWindow stdout) = some ia := by
            apply (gPatFirst_some_iff _ _ _ _ ia).mpr
            refine ⟨(evidenceA_iff _ ia).mpr heA, ?_⟩
            intro j hj
            cases hg : gPatAt GradePandas.aliceTxt ("2".toList) ("250".toList)
                ((GradePandas.sortedWindow stdout).drop j) with
            | false => rfl
            | true => exact absurd ((evidenceA_iff _ j).mp hg) (hminA2 j hj)
          have hB2 : gPatFirst GradePandas.bobTxt ("1".toList) ("200".toList)
              (GradePandas.sortedWindow stdout) = some ib := by
            apply (gPatFirst_some_iff _ _ _ _ ib).mpr
            refine ⟨(evidenceB_iff _ ib).mpr heB, ?_⟩
            intro j hj
            cases hg : gPatAt GradePandas.bobTxt ("1".toList) ("200".toList)
                ((GradePandas.sortedWindow stdout).drop j) with
            | false => rfl
            | true => exact absurd ((evidenceB_iff _ j).mp hg) (hminB2 j hj)
          have hia : ia = ia0 := by
            have := hA2.symm.trans hA
            exact (Option.some.inj this)
          have hib : ib = ib0 := by
            have := hB2.symm.trans hB
            exact (Option.some.inj this)
          omega
  · intro i t hi hmin
    unfold GradePandas.sortedWindow
    rw [splitAfterFirst_some_of GradePandas.sortedMarker stdout t i hi hmin]
  · intro h
    unfold GradePandas.sortedWindow
    rw [splitAfterFirst_none_of GradePandas.sortedMarker (by decide) stdout h]

/-- Witness for C3: applying the window characterizations at concrete
inputs — with the marker at the very front the window is the remainder, and
with no occurrence at all the window is the whole text. -/
theorem C3_sorted_ordering_witness :
    ((GradePandas.sortedMarker ++ ("z".toList)).drop 0 =
        GradePandas.sortedMarker ++ ("z".toList)
      ∧ GradePandas.sortedWindow (GradePandas.sortedMarker ++ ("z".toList)) = ("z".toList))
    ∧ GradePandas.sortedWindow (("xy").toList) = ("xy").toList :=
  ⟨⟨by decide,
    (C3_sorted_ordering (GradePandas.sortedMarker ++ ("z".toList))).2.1 0 ("z".toList)
      (by decide) (by omega)⟩,
   (C3_sorted_ordering (("xy").toList)).2.2.1
     (by
       intro i u h
       have hlen := congrArg List.length h
       simp [GradePandas.sortedMarker, GradePandas.mojiCheck] at hlen
       omega)⟩

/-- C7: The group task's tolerant check passes exactly when both rows'
evidence (`Alice`, whitespace, `2`, whitespace, `250`; and `Bob`,
whitespace, `1`, whitespace, `200`) occur somewhere in the output,
independently of each other's position; in particular an output with Bob's
row before Alice's row still passes. -/
theorem C7_grouped_order_agnostic (stdout : Str) :
    (GradePandas.grouped_fallback stdout = true ↔
      (∃ i, rowEvidence GradePandas.aliceTxt ("2".toList) ("250".toList) stdout i)
      ∧ (∃ j, rowEvidence GradePandas.bobTxt ("1".toList) ("200".toList) stdout j))
    ∧ GradePandas.grouped_fallback (("Bob 1 200\nAlice 2 250").toList) = true := by
  constructor
  · unfold GradePandas.grouped_fallback
    rw [Bool.and_eq_true]
    apply and_congr
    · rw [gSearch_iff_exists_at]
      exact exists_congr (fun i => evidenceA_iff stdout i)
    · rw [gSearch_iff_exists_at]
      exact exists_congr (fun j => evidenceB_iff stdout j)
  · decide

/-- Equal sequences under `pyEqList` have equal lengths. -/
theorem pyEqList_length : ∀ xs ys : List PyVal, pyEqList xs ys = true →
    xs.length = ys.length
  | [], [], _ => rfl
  | [], y :: ys, h => by simp at h
  | x :: xs, [], h => by simp at h
  | x :: xs, y :: ys, h => by
    rw [pyEqList_cons_cons, Bool.and_eq_true] at h
    simp [pyEqList_length xs ys h.2]

/-- A key/value pair present in a dict with pairwise `pyEq`-distinct keys is
found by `pyFindEq` (given the pair's components are self-equal). -/
theorem pyFindEq_of_mem (k v : PyVal) : ∀ b : List (PyVal × PyVal),
    (k, v) ∈ b →
    b.Pairwise (fun e1 e2 => pyEq e1.1 e2.1 = false ∧ pyEq e2.1 e1.1 = false) →
    pyEq k k = true → pyEq v v = true → pyFindEq k v b = true := by
  intro b
  induction b with
  | nil => intro hmem; simp at hmem
  | cons e rest ih =>
    intro hmem hpw hk hv
    obtain ⟨k2, v2⟩ := e
    rw [pyFindEq_cons]
    rcases List.mem_cons.mp hmem with he | he
    · have hkk : k = k2 := congrArg Prod.fst he
      have hvv : v = v2 := congrArg Prod.snd he
      subst hkk
      subst hvv
      rw [hk, if_pos rfl]
      exact hv
    · have hpair := (List.pairwise_cons.mp hpw).1 (k, v) he
      rw [hpair.2]
      simp only [Bool.false_eq_true, if_false]
      exact ih he (List.pairwise_cons.mp hpw).2 hk hv

/-- Dict inclusion follows from per-entry findability. -/
theorem pyDictSub_of_all : ∀ a b : List (PyVal × PyVal),
    (∀ e ∈ a, pyFindEq e.1 e.2 b = true) → pyDictSub a b = true := by
  intro a b
  induction a with
  | nil => intro _; simp
  | cons e rest ih =>
    intro h
    obtain ⟨k, v⟩ := e
    rw [pyDictSub_cons, Bool.and_eq_true]
    exact ⟨h (k, v) (List.mem_cons_self _ _),
      ih (fun e2 he2 => h e2 (List.mem_cons_of_mem _ he2))⟩

/-- C8: `compare_deep` is Python deep structural equality: integer and
string scalars compare by value; list and tuple sequences compare
element-wise in order and never equal when lengths differ; dicts compare
order-insensitively (any permutation of a dict with pairwise-distinct,
self-equal entries is equal to it); and values of different structural
shape (sequence vs. mapping, list vs. tuple, scalar vs. container) never
compare equal. -/
theorem C8_compare_deep_structural :
    (∀ m n : Int, compare_deep (PyVal.int m) (PyVal.int n) = true ↔ m = n)
    ∧ (∀ s t : Str, compare_deep (PyVal.str s) (PyVal.str t) = true ↔ s = t)
    ∧ (∀ (x y : PyVal) (xs ys : List PyVal),
        compare_deep (PyVal.list (x :: xs)) (PyVal.list (y :: ys)) = true ↔
          (compare_deep x y = true ∧ compare_deep (PyVal.list xs) (PyVal.list ys) = true))
    ∧ (∀ (x y : PyVal) (xs ys : List PyVal),
        compare_deep (PyVal.tuple (x :: xs)) (PyVal.tuple (y :: ys)) = true ↔
          (compare_deep x y = true ∧ compare_deep (PyVal.tuple xs) (PyVal.tuple ys) = true))
    ∧ (∀ xs ys : List PyVal, xs.length ≠ ys.length →
        compare_deep (PyVal.list xs) (PyVal.list ys) = false)
    ∧ (∀ a b : List (PyVal × PyVal), a.Perm b →
        a.Pairwise (fun e1 e2 => pyEq e1.1 e2.1 = false ∧ pyEq e2.1 e1.1 = false) →
        (∀ e ∈ a, pyEq e.1 e.1 = true ∧ pyEq e.2 e.2 = true) →
        compare_deep (PyVal.dict a) (PyVal.dict b) = true)
    ∧ (∀ xs ys : List PyVal, compare_deep (PyVal.list xs) (PyVal.tuple ys) = false)
    ∧ (∀ (xs : List PyVal) (es : List (PyVal × PyVal)),
        compare_deep (PyVal.list xs) (PyVal.dict es) = false)
    ∧ (∀ (xs : List PyVal) (es : List (PyVal × PyVal)),
        compare_deep (PyVal.tuple xs) (PyVal.dict es) = false)
    ∧ (∀ (n : Int) (xs : List PyVal), compare_deep (PyVal.int n) (PyVal.list xs) = false)
    ∧ (∀ (s : Str) (es : List (PyVal × PyVal)),
        compare_deep (PyVal.str s) (PyVal.dict es) = false) := by
  refine ⟨?_, ?_, ?_, ?_, ?_, ?_, ?_, ?_, ?_, ?_, ?_⟩
  · intro m n; simp [compare_deep]
  · intro s t; simp [compare_deep]
  · intro x y xs ys; simp [compare_deep, Bool.and_eq_true]
  · intro x y xs ys; simp [compare_deep, Bool.and_eq_true]
  · intro xs ys hne
    cases h : pyEqList xs ys with
    | false => simp [compare_deep, h]
    | true => exact absurd (pyEqList_length xs ys h) hne
  · intro a b hperm hpw hrefl
    simp only [compare_deep, pyEq_dict_dict, Bool.and_eq_true]
    constructor
    · exact beq_iff_eq.mpr hperm.length_eq
    · apply pyDictSub_of_all
      intro e he
      obtain ⟨k, v⟩ := e
      have hself := hrefl (k, v) he
      apply pyFindEq_of_mem k v b (hperm.subset he) ?_ hself.1 hself.2
      exact (hperm.pairwise_iff (fun h => ⟨h.2, h.1⟩)).mp hpw
  · intro xs ys; simp [compare_deep]
  · intro xs es; simp [compare_deep]
  · intro xs es; simp [compare_deep]
  · intro n xs; simp [compare_deep]
  · intro s es; simp [compare_deep]

/-- Witness for C8: a two-entry dict equals its reversal (applying the
permutation conjunct), and a one-element list never equals the empty list
(applying the length conjunct). -/
theorem C8_compare_deep_structural_witness :
    compare_deep (PyVal.dict [(pstr "a", PyVal.int 1), (pstr "b", PyVal.int 2)])
        (PyVal.dict [(pstr "b", PyVal.int 2), (pstr "a", PyVal.int 1)]) = true
    ∧ compare_deep (PyVal.list [PyVal.int 1]) (PyVal.list []) = false :=
  ⟨C8_compare_deep_structural.2.2.2.2.2.1
      [(pstr "a", PyVal.int 1), (pstr "b", PyVal.int 2)]
      [(pstr "b", PyVal.int 2), (pstr "a", PyVal.int 1)]
      (List.Perm.swap (pstr "b", PyVal.int 2) (pstr "a", PyVal.int 1) [])
      (by decide) (by decide),
   C8_compare_deep_structural.2.2.2.2.1 [PyVal.int 1] [] (by decide)⟩

/-- C6: In both graders, every breakdown entry is either 0 or that task's
configured point value, and the total equals the sum of the breakdown's
values; the same two invariants hold for every assembled per-submission
record, including records produced by the execution-failure path. -/
theorem C6_binary_awards_and_total_eq_sum :
    (∀ stdout : Str, ∀ p ∈ (GradePandas.grade_from_stdout stdout).2.1,
        p.2 = 0 ∨ p.2 = GradePandas.POINTS p.1)
    ∧ (∀ stdout : Str, (GradePandas.grade_from_stdout stdout).1 =
        (((GradePandas.grade_from_stdout stdout).2.1).map Prod.snd).sum)
    ∧ (∀ stdout : Str, ∀ p ∈ (GradePythonList.grade_from_stdout stdout).2.1,
        p.2 = 0 ∨ p.2 = GradePythonList.POINTS p.1)
    ∧ (∀ stdout : Str, (GradePythonList.grade_from_stdout stdout).1 =
        (((GradePythonList.grade_from_stdout stdout).2.1).map Prod.snd).sum)
    ∧ (∀ sid fname out err : Str, ∀ code : Int,
        ∀ p ∈ (GradePandas.assemble sid fname out err code).breakdown,
          p.2 = 0 ∨ p.2 = GradePandas.POINTS p.1)
    ∧ (∀ sid fname out err : Str, ∀ code : Int,
        (GradePandas.assemble sid fname out err code).total =
          (((GradePandas.assemble sid fname out err code).breakdown).map Prod.snd).sum)
    ∧ (∀ sid fname out err : Str, ∀ code : Int,
        ∀ p ∈ (GradePythonList.assemble sid fname out err code).breakdown,
          p.2 = 0 ∨ p.2 = GradePythonList.POINTS p.1)
    ∧ (∀ sid fname out err : Str, ∀ code : Int,
        (GradePythonList.assemble sid fname out err code).total =
          (((GradePythonList.assemble sid fname out err code).breakdown).map Prod.snd).sum) := by
  have hpd : ∀ stdout : Str, ∀ p ∈ (GradePandas.grade_from_stdout stdout).2.1,
      p.2 = 0 ∨ p.2 = GradePandas.POINTS p.1 := by
    intro stdout p hp
    simp only [GradePandas.grade_from_stdout, taskChain_fst, List.mem_cons,
      List.not_mem_nil, or_false] at hp
    rcases hp with h | h | h | h <;> subst h <;> (split <;> simp [GradePandas.POINTS])
  have hpy : ∀ stdout : Str, ∀ p ∈ (GradePythonList.grade_from_stdout stdout).2.1,
      p.2 = 0 ∨ p.2 = GradePythonList.POINTS p.1 := by
    intro stdout p hp
    simp only [GradePythonList.grade_from_stdout, List.mem_cons,
      List.not_mem_nil, or_false] at hp
    rcases hp with h | h | h | h <;> subst h <;> (split <;> simp [GradePythonList.POINTS])
  have htd : ∀ stdout : Str, (GradePandas.grade_from_stdout stdout).1 =
      (((GradePandas.grade_from_stdout stdout).2.1).map Prod.snd).sum := fun _ => rfl
  have hty : ∀ stdout : Str, (GradePythonList.grade_from_stdout stdout).1 =
      (((GradePythonList.grade_from_stdout stdout).2.1).map Prod.snd).sum := fun _ => rfl
  refine ⟨hpd, htd, hpy, hty, ?_, ?_, ?_, ?_⟩
  · intro sid fname out err code p hp
    by_cases hc : code ≠ 0
    · simp only [GradePandas.assemble, if_pos hc, List.mem_cons,
        List.not_mem_nil, or_false] at hp
      rcases hp with h | h | h | h <;> subst h <;> simp
    · rw [not_not] at hc
      subst hc
      have h0 : ¬ ((0 : Int) ≠ 0) := by simp
      simp only [GradePandas.assemble, if_neg h0] at hp
      exact hpd out p hp
  · intro sid fname out err code
    by_cases hc : code ≠ 0
    · simp [GradePandas.assemble, hc]
    · rw [not_not] at hc
      subst hc
      have h0 : ¬ ((0 : Int) ≠ 0) := by simp
      simp only [GradePandas.assemble]
      rw [if_neg h0]
      exact htd out
  · intro sid fname out err code p hp
    by_cases hc : code ≠ 0
    · simp only [GradePythonList.assemble, if_pos hc, List.mem_cons,
        List.not_mem_nil, or_false] at hp
      rcases hp with h | h | h | h <;> subst h <;> simp
    · rw [not_not] at hc
      subst hc
      have h0 : ¬ ((0 : Int) ≠ 0) := by simp
      simp only [GradePythonList.assemble, if_neg h0] at hp
      exact hpy out p hp
  · intro sid fname out err code
    by_cases hc : code ≠ 0
    · simp [GradePythonList.assemble, hc]
    · rw [not_not] at hc
      subst hc
      have h0 : ¬ ((0 : Int) ≠ 0) := by simp
      simp only [GradePythonList.assemble]
      rw [if_neg h0]
      exact hty out

/-- Witness for C6: the joined entry of the pandas grader on empty output
is present with zero points, which satisfies the binary-award invariant. -/
theorem C6_binary_awards_and_total_eq_sum_witness :
    ((TaskKey.joined, (0 : Nat)) ∈ (GradePandas.grade_from_stdout []).2.1)
    ∧ ((TaskKey.joined, (0 : Nat)).2 = 0
        ∨ (TaskKey.joined, (0 : Nat)).2 = GradePandas.POINTS (TaskKey.joined, (0 : Nat)).1) :=
  ⟨by decide,
   C6_binary_awards_and_total_eq_sum.1 [] (TaskKey.joined, (0 : Nat)) (by decide)⟩
